import Mathlib

/-!
Verification of the docx-mcp storage engine and session-recovery proxy.

Shallow embedding of the Rust sources:
* `crates/docx-storage-cloudflare/src/storage/r2.rs` — WAL byte layout,
  CAS loops over ETag conditional PUT, read/append/truncate.
* `crates/docx-storage-cloudflare/src/service.rs` — index session add.
* `crates/docx-storage-gdrive/src/token_manager.rs` — OAuth token cache.
* `crates/docx-storage-gdrive/src/sync.rs` — sync backend state.
* `crates/docx-storage-gdrive/src/watch.rs` — polling change detection.
* `crates/docx-mcp-sse-proxy/src/{handlers,error}.rs` — retry loop and
  error-to-HTTP mapping.

Bytes are modelled as `Nat` (values below 256 in every reachable state),
byte strings as `List Nat`, machine integers as `Nat`/`Int` with explicit
`% 2 ^ 64` where the Rust code truncates.  Network and library effects
(S3 responses, serde_json parsing, the OAuth endpoint) enter as explicit
oracle arguments, so every operation is a pure function of its inputs.
-/

set_option autoImplicit false

/-! ## Little-endian 64-bit length header (r2.rs WAL layout)

The Rust code writes `(wal_data.len() - 8) as i64` with `to_le_bytes` and
reads it back with `i64::from_le_bytes(..) as usize`; on a 64-bit target
the i64 → usize cast is bitwise, so the header round-trips through
`% 2 ^ 64`. -/

/-- `n.to_le_bytes` truncated to `k` little-endian base-256 digits. -/
def natToLeBytes : Nat → Nat → List Nat
  | 0, _ => []
  | k + 1, n => n % 256 :: natToLeBytes k (n / 256)

/-- `from_le_bytes`: recompose a natural number from little-endian digits. -/
def leBytesToNat : List Nat → Nat
  | [] => 0
  | b :: rest => b + 256 * leBytesToNat rest

/-! ## ASCII trim, line splitting, UTF-8 validity

`read_wal` does `std::str::from_utf8`, then `content.lines()`, then
`line.trim()`.  We model `lines()` as a split on byte 10; Rust's `lines()`
additionally drops one final empty segment and strips a trailing `\r`,
but the loop that consumes the lines trims each line and skips the
blank ones, so the two presentations yield the same entries and the same
positions.  `trim` is modelled on the ASCII whitespace bytes; the
non-ASCII Unicode whitespace characters are multi-byte in UTF-8 and none
of their bytes is below 128, so the models agree on ASCII payloads. -/

/-- ASCII bytes that `char::is_whitespace` strips: TAB, LF, VT, FF, CR, SPC. -/
def isAsciiWsB (b : Nat) : Bool :=
  b == 9 || b == 10 || b == 11 || b == 12 || b == 13 || b == 32

/-- `str::trim` restricted to the ASCII fragment. -/
def trimAscii (l : List Nat) : List Nat :=
  ((l.dropWhile isAsciiWsB).reverse.dropWhile isAsciiWsB).reverse

/-- Split a byte string at every LF (byte 10); the segment after the last
LF is kept even when empty, mirroring an iterator over `\n`-separated
pieces.  (Rust's `lines()` drops that final empty segment; the consumer
skips blank lines, so the difference is unobservable.) -/
def splitNl : List Nat → List (List Nat)
  | [] => [[]]
  | b :: rest =>
    if b = 10 then [] :: splitNl rest
    else
      match splitNl rest with
      | s :: ss => (b :: s) :: ss
      | [] => [[b]]

/-- UTF-8 continuation byte: `0x80..=0xBF`. -/
def isUtf8Cont (b : Nat) : Bool := 128 ≤ b && b ≤ 191

/-- RFC 3629 UTF-8 validity, fuel-indexed (fuel ≥ list length suffices);
models `std::str::from_utf8(..).is_ok()`. -/
def validUtf8Fuel : Nat → List Nat → Bool
  | 0, l => l.isEmpty
  | _ + 1, [] => true
  | fuel + 1, b :: rest =>
    if b ≤ 127 then validUtf8Fuel fuel rest
    else if 194 ≤ b && b ≤ 223 then
      match rest with
      | c1 :: rest2 => isUtf8Cont c1 && validUtf8Fuel fuel rest2
      | [] => false
    else if b == 224 then
      match rest with
      | c1 :: c2 :: rest2 =>
        (160 ≤ c1 && c1 ≤ 191) && isUtf8Cont c2 && validUtf8Fuel fuel rest2
      | _ => false
    else if 225 ≤ b && b ≤ 236 then
      match rest with
      | c1 :: c2 :: rest2 => isUtf8Cont c1 && isUtf8Cont c2 && validUtf8Fuel fuel rest2
      | _ => false
    else if b == 237 then
      match rest with
      | c1 :: c2 :: rest2 =>
        (128 ≤ c1 && c1 ≤ 159) && isUtf8Cont c2 && validUtf8Fuel fuel rest2
      | _ => false
    else if 238 ≤ b && b ≤ 239 then
      match rest with
      | c1 :: c2 :: rest2 => isUtf8Cont c1 && isUtf8Cont c2 && validUtf8Fuel fuel rest2
      | _ => false
    else if b == 240 then
      match rest with
      | c1 :: c2 :: c3 :: rest2 =>
        (144 ≤ c1 && c1 ≤ 191) && isUtf8Cont c2 && isUtf8Cont c3 &&
          validUtf8Fuel fuel rest2
      | _ => false
    else if 241 ≤ b && b ≤ 243 then
      match rest with
      | c1 :: c2 :: c3 :: rest2 =>
        isUtf8Cont c1 && isUtf8Cont c2 && isUtf8Cont c3 && validUtf8Fuel fuel rest2
      | _ => false
    else if b == 244 then
      match rest with
      | c1 :: c2 :: c3 :: rest2 =>
        (128 ≤ c1 && c1 ≤ 143) && isUtf8Cont c2 && isUtf8Cont c3 &&
          validUtf8Fuel fuel rest2
      | _ => false
    else false

/-- UTF-8 validity of a byte string. -/
def validUtf8 (l : List Nat) : Bool := validUtf8Fuel l.length l

/-! ## Core storage types

The module `docx-storage-core/src/storage.rs` (struct declarations) is not
in the source tree; fields are reconstructed from their uses in
`r2.rs`/`service.rs` and §3 of the spec.  The Rust `timestamp` field of a
WAL entry (wall-clock, read back from JSON or defaulted to `Utc::now`) is
not modelled: no claim mentions it and it does not influence the byte
layout. -/

/-- Modelled from the spec: `StorageError` (core `error.rs` is not in the
source tree); variants and payloads are those constructed in `r2.rs`,
`sync.rs` and `watch.rs`.  The source's `Io` variant is spelled
`IoError` here. -/
inductive StorageError where
  | Lock (msg : String)
  | IoError (msg : String)
  | Serialization (msg : String)
  | Sync (msg : String)
  | Watch (msg : String)
deriving DecidableEq, Repr

/-- WAL entry as used by `r2.rs`: caller-supplied `position`, opaque
`patch_json` payload bytes; `operation`/`path` ride along unused by the
byte layout. -/
structure WalEntry where
  position : Nat
  operation : String
  path : String
  patch_json : List Nat
deriving DecidableEq, Repr

/-- Decidable equality of operation results, for concrete evaluation. -/
instance exceptDecEq {e a : Type} [DecidableEq e] [DecidableEq a] :
    DecidableEq (Except e a) := fun x y =>
  match x, y with
  | .error u, .error v => decidable_of_iff (u = v) (by simp)
  | .ok u, .ok v => decidable_of_iff (u = v) (by simp)
  | .error _, .ok _ => isFalse (by simp)
  | .ok _, .error _ => isFalse (by simp)

/-! ## WAL byte-level operations (r2.rs)

The WAL for one `(tenant, session)` is a single object; its presence is
an `Option (List Nat)`.  The CAS loops in `cas_append_wal` /
`cas_truncate_wal` re-run their body on ETag conflict; under a single
writer each conditional PUT succeeds first try, so the per-call effect is
the loop body, embedded below as a pure state transformer.  (The conflict
/ exhaustion behaviour of the CAS engine itself is modelled separately
with the index CAS, which claim C3 is about.) -/

/-- Does a payload already end with the LF terminator? -/
def endsWithNl (l : List Nat) : Bool :=
  match l.getLast? with
  | some b => b == 10
  | none => false

/-- The append loop of `cas_append_wal`: extend a WAL buffer with each
entry's raw bytes, terminating each with LF unless already terminated. -/
def walAppendBytes (base : List Nat) (entries : List WalEntry) : List Nat :=
  entries.foldl
    (fun acc e => acc ++ e.patch_json ++ (if endsWithNl e.patch_json then [] else [10]))
    base

/-- `last_position` accumulator of `cas_append_wal`: starts at 0, set to
each entry's `position` field in turn. -/
def lastAppendedPos (entries : List WalEntry) : Nat :=
  entries.foldl (fun _ e => e.position) 0

/-- `cas_append_wal` (r2.rs): empty input is a no-op returning 0;
otherwise load the current blob (clipped to `8 + header` bytes, a fresh
8-byte zero header when absent or shorter than 8 bytes), append the
entries' bytes, rewrite the length header, store.  Returns the new blob
and the returned position. -/
def cas_append_wal (state : Option (List Nat)) (entries : List WalEntry) :
    Option (List Nat) × Nat :=
  if entries.isEmpty then (state, 0)
  else
    let base : List Nat :=
      match state with
      | some data =>
        if 8 ≤ data.length then
          let data_len := leBytesToNat (data.take 8)
          data.take (min (8 + data_len) data.length)
        else List.replicate 8 0
      | none => List.replicate 8 0
    let body := walAppendBytes base entries
    (some (natToLeBytes 8 (body.length - 8) ++ body.drop 8), lastAppendedPos entries)

/-- `entries.len() as u64 >= limit` with `limit = limit.unwrap_or(u64::MAX)`;
`u64::MAX` is unreachable for an in-memory vector, so `none` never hits. -/
def limitHit (n : Nat) : Option Nat → Bool
  | some l => l ≤ n
  | none => false

/-- The line-scanning loop of `read_wal`: blank lines (after trim) are
skipped without consuming a position; lines before `from_position` are
skipped but consume one; each remaining line must parse
(`serde_json::from_str`, abstracted as the `parseOk` oracle) and is
emitted with its line-inferred position; reaching the limit returns
`has_more = true` immediately. -/
def readWalLoop (parseOk : List Nat → Bool) (from_position : Nat) (limit : Option Nat) :
    List (List Nat) → Nat → List WalEntry → Except StorageError (List WalEntry × Bool)
  | [], _, acc => .ok (acc, false)
  | line :: rest, position, acc =>
    let t := trimAscii line
    if t.isEmpty then readWalLoop parseOk from_position limit rest position acc
    else if from_position ≤ position then
      if parseOk t then
        let acc' := acc ++ [⟨position, "", "", t⟩]
        if limitHit acc'.length limit then .ok (acc', true)
        else readWalLoop parseOk from_position limit rest (position + 1) acc'
      else .error (.Serialization "Failed to parse WAL entry")
    else readWalLoop parseOk from_position limit rest (position + 1) acc

/-- `read_wal` (r2.rs): absent object, short blob, or zero header length
yield `([], false)`; otherwise the JSONL region (header length clipped to
the bytes present) is checked for UTF-8, split into lines, and scanned by
`readWalLoop` from position 1.

The source computes the clip as `(8 + data_len).min(raw_data.len())` in
usize arithmetic.  The unbounded addition below agrees with it exactly
while `8 + data_len < 2 ^ 64`; for decoded header values at or above
`2 ^ 64 - 8` the Rust addition wraps and the subsequent slice
`&raw_data[8..end]` (whose end lands below its start 8) panics, so the
source has no result there — see `usizeEndIndex` and claim C9's
correction. -/
def read_wal (parseOk : List Nat → Bool) (state : Option (List Nat))
    (from_position : Nat) (limit : Option Nat) :
    Except StorageError (List WalEntry × Bool) :=
  match state with
  | none => .ok ([], false)
  | some raw =>
    if raw.length < 8 then .ok ([], false)
    else
      let data_len := leBytesToNat (raw.take 8)
      if data_len = 0 then .ok ([], false)
      else
        let endIdx := min (8 + data_len) raw.length
        let jsonl := (raw.drop 8).take (endIdx - 8)
        if validUtf8 jsonl then
          readWalLoop parseOk from_position limit (splitNl jsonl) 1 []
        else .error (.IoError "WAL is not valid UTF-8")

/-- The source's end-of-region computation `(8 + data_len).min(len)`
with genuine usize semantics: the addition wraps modulo `2 ^ 64`.  When
the wrapped value lands below 8, the source's subsequent slice
`&raw_data[8..end]` has its start past its end and panics. -/
def usizeEndIndex (data_len blobLen : Nat) : Nat :=
  min ((8 + data_len) % 2 ^ 64) blobLen

/-- `cas_truncate_wal` (r2.rs): partition the previously-read entries by
`position ≤ keep_count`; nothing to remove (or object vanished) returns 0
without rewriting; otherwise rebuild the blob from the kept entries and
return the removed count. -/
def cas_truncate_wal (state : Option (List Nat)) (keep_count : Nat)
    (entries : List WalEntry) : Option (List Nat) × Nat :=
  let parts := entries.partition (fun e => e.position ≤ keep_count)
  let removed_count := parts.2.length
  if removed_count = 0 then (state, 0)
  else
    match state with
    | none => (none, 0)
    | some _ =>
      let body := walAppendBytes (List.replicate 8 0) parts.1
      (some (natToLeBytes 8 (body.length - 8) ++ body.drop 8), removed_count)

/-- `truncate_wal` (r2.rs): read the whole WAL (`from_position = 0`,
no limit), then truncate via CAS. -/
def truncate_wal (parseOk : List Nat → Bool) (state : Option (List Nat))
    (keep_count : Nat) : Except StorageError (Option (List Nat) × Nat) :=
  match read_wal parseOk state 0 none with
  | .error e => .error e
  | .ok (entries, _) => .ok (cas_truncate_wal state keep_count entries)

/-! ## Canonical WAL blobs

A WAL produced by the engine itself is `header ++ joinNl payloads`: one
LF-terminated line per entry.  The claims about append/read/truncate
round-trips are stated over these canonical blobs, with the payloads
well-formed in the sense of §3 of the spec (a `patch_bytes` is one
JSON-encoded line). -/

/-- Concatenate payload lines, LF-terminating each. -/
def joinNl : List (List Nat) → List Nat
  | [] => []
  | p :: ps => p ++ 10 :: joinNl ps

/-- The canonical WAL blob for a list of payload lines. -/
def walBlob (ps : List (List Nat)) : List Nat :=
  natToLeBytes 8 (joinNl ps).length ++ joinNl ps

/-- The entries `read_wal` reconstructs: line payloads at consecutive
line-inferred positions starting at `pos`. -/
def entriesFrom (pos : Nat) : List (List Nat) → List WalEntry
  | [] => []
  | p :: ps => ⟨pos, "", "", p⟩ :: entriesFrom (pos + 1) ps

/-- A payload that is a single well-formed line in the sense of the spec's
data model (§3): non-empty, ASCII, containing no LF, with no surrounding
whitespace, and accepted by the JSON parser oracle. -/
def WellFormedPatch (parseOk : List Nat → Bool) (p : List Nat) : Prop :=
  p ≠ [] ∧ (∀ b ∈ p, b ≤ 127) ∧ 10 ∉ p ∧ trimAscii p = p ∧ parseOk p = true

instance (parseOk : List Nat → Bool) (p : List Nat) :
    Decidable (WellFormedPatch parseOk p) := by
  unfold WellFormedPatch; infer_instance

/-! ## Sequences of append calls -/

/-- All payloads of a sequence of append calls, in call order. -/
def callPatches (calls : List (List WalEntry)) : List (List Nat) :=
  (calls.map (fun es => es.map (fun e => e.patch_json))).flatten

/-- Run a sequence of `AppendWal` calls against a WAL state, collecting
the returned positions. -/
def appendCalls : Option (List Nat) → List (List WalEntry) → Option (List Nat) × List Nat
  | s, [] => (s, [])
  | s, es :: rest =>
    let step := cas_append_wal s es
    let next := appendCalls step.1 rest
    (next.1, step.2 :: next.2)

/-! ## CAS engine over conditional PUT (r2.rs), session index (service.rs) -/

/-- Maximum retries for transient 429/5xx errors (r2.rs). -/
def MAX_RETRIES : Nat := 5

/-- Maximum retries for CAS loops (r2.rs). -/
def CAS_MAX_RETRIES : Nat := 10

/-- Shape of one failed S3 request (`aws_sdk_s3::error::SdkError`). -/
inductive SdkErr where
  | service (status : Nat)
  | response (status : Nat)
  | timeout
  | dispatch
  | other
deriving DecidableEq, Repr

/-- `is_retryable_s3_error` (r2.rs): 429 / 500-504 service or response
status, timeouts and dispatch failures. -/
def is_retryable_s3_error : SdkErr → Bool
  | .service s => s == 429 || (500 ≤ s && s ≤ 504)
  | .response s => s == 429 || (500 ≤ s && s ≤ 504)
  | .timeout => true
  | .dispatch => true
  | .other => false

/-- `is_precondition_failed` (r2.rs): service or response status 412. -/
def is_precondition_failed : SdkErr → Bool
  | .service s => s == 412
  | .response s => s == 412
  | _ => false

/-- The retry loop of `put_object_conditional` (r2.rs).  The oracle
`resp` gives the S3 outcome of the attempt with the given index (`Ok`
carries the new ETag).  412 returns `Lock` at once and is never retried;
a retryable error backs off and retries while `attempt < MAX_RETRIES`;
anything else surfaces as an IO error.  Fuel is `MAX_RETRIES + 1`, one
unit per loop iteration; the fuel-exhausted arm mirrors the
`unreachable!()` after the Rust `for` loop. -/
def putCondLoop (resp : Nat → Except SdkErr String) :
    Nat → Nat → Except StorageError String
  | 0, _ => .error (.IoError "unreachable")
  | fuel + 1, attempt =>
    match resp attempt with
    | .ok etag => .ok etag
    | .error e =>
      if is_precondition_failed e then
        .error (.Lock "ETag mismatch: object was modified concurrently")
      else if is_retryable_s3_error e ∧ attempt < MAX_RETRIES then
        putCondLoop resp fuel (attempt + 1)
      else .error (.IoError "R2 put_object_conditional error")

/-- `put_object_conditional` (r2.rs): attempts `0..=MAX_RETRIES`. -/
def put_object_conditional (resp : Nat → Except SdkErr String) :
    Except StorageError String :=
  putCondLoop resp (MAX_RETRIES + 1) 0

/-- Per-session catalog entry; fields as constructed in `service.rs`
(`chrono` timestamps as Unix seconds; the out-of-range-timestamp
fallback to `Utc::now` is not modelled). -/
structure SessionIndexEntry where
  id : String
  source_path : Option String
  auto_sync : Bool
  created_at : Int
  last_modified_at : Int
  docx_file : Option String
  wal_count : Nat
  cursor_position : Nat
  checkpoint_positions : List Nat
  pending_external_change : Bool
deriving DecidableEq, Repr

/-- Modelled from the spec: `SessionIndex` (core `storage.rs` is not in
the source tree) is the per-tenant mapping `session_id → entry`, §3,
serialized as one JSON blob; carried as an association list. -/
structure SessionIndex where
  sessions : List (String × SessionIndexEntry)
deriving DecidableEq, Repr

/-- Modelled from the spec: membership test used by the service mutators. -/
def SessionIndex.contains (idx : SessionIndex) (sid : String) : Bool :=
  idx.sessions.any (fun kv => kv.1 == sid)

/-- Modelled from the spec: insert-or-replace keyed by the entry's id. -/
def SessionIndex.upsert (idx : SessionIndex) (entry : SessionIndexEntry) :
    SessionIndex :=
  if idx.contains entry.id then
    ⟨idx.sessions.map (fun kv => if kv.1 == entry.id then (kv.1, entry) else kv)⟩
  else ⟨idx.sessions ++ [(entry.id, entry)]⟩

/-- Environment of one CAS attempt: the parsed index and ETag from the
conditional GET (`none` = object absent, giving `SessionIndex::default`)
and the outcome of the conditional PUT of the value this attempt writes.
The serde_json round-trip is value-faithful and not modelled. -/
structure CasEnv where
  get : Option (SessionIndex × String)
  put : Except StorageError String

/-- The loop of `cas_index` (r2.rs), generalized over the closure's
by-product so the service closures' captured flags are observable:
read, mutate, conditionally write; on `Lock` (412) back off and retry;
when the `CAS_MAX_RETRIES` budget is spent, fail with the CasExhausted
`Lock` error. -/
def casIndexLoop {b : Type} (tenant_id : String) (env : Nat → CasEnv)
    (mutator : SessionIndex → SessionIndex × b) :
    Nat → Nat → Except StorageError (SessionIndex × b)
  | 0, _ => .error (.Lock ("CAS index exhausted 10 retries for tenant " ++ tenant_id))
  | fuel + 1, attempt =>
    let index0 : SessionIndex :=
      match (env attempt).get with
      | some (i, _) => i
      | none => ⟨[]⟩
    let result := mutator index0
    match (env attempt).put with
    | .ok _ => .ok result
    | .error (.Lock _) => casIndexLoop tenant_id env mutator fuel (attempt + 1)
    | .error e => .error e

/-- `cas_index` (r2.rs): the CAS loop with a plain mutator, returning
the value it wrote. -/
def cas_index (tenant_id : String) (env : Nat → CasEnv)
    (mutator : SessionIndex → SessionIndex) : Except StorageError SessionIndex :=
  (casIndexLoop tenant_id env (fun i => (mutator i, ())) CAS_MAX_RETRIES 0).map
    (fun r => r.1)

/-- The fields of an `AddSessionToIndexRequest` entry consumed by
`service.rs`. -/
structure AddSessionEntryReq where
  source_path : String
  created_at_unix : Int
  modified_at_unix : Int
  wal_position : Nat
  checkpoint_positions : List Nat
  pending_external_change : Bool
deriving DecidableEq, Repr

/-- Response of AddSessionToIndex. -/
structure AddSessionToIndexResponse where
  success : Bool
  already_exists : Bool
deriving DecidableEq, Repr

/-- The closure body of `add_session_to_index` (service.rs): when the
session is already present, leave the index alone and flag
`already_exists`; otherwise upsert the freshly-built entry. -/
def addSessionMutator (sid : String) (entry : AddSessionEntryReq)
    (index : SessionIndex) : SessionIndex × Bool :=
  if index.contains sid then (index, true)
  else
    (index.upsert
      { id := sid
        source_path := if entry.source_path = "" then none else some entry.source_path
        auto_sync := true
        created_at := entry.created_at_unix
        last_modified_at := entry.modified_at_unix
        docx_file := some (sid ++ ".docx")
        wal_count := entry.wal_position
        cursor_position := entry.wal_position
        checkpoint_positions := entry.checkpoint_positions
        pending_external_change := entry.pending_external_change }, false)

/-- `add_session_to_index` (service.rs): run the CAS engine with the add
mutator; on success answer `success = true` with the flag set by the
(final, successful) closure run.  The index value that was written is
returned alongside the response so the storage effect is observable. -/
def add_session_to_index (tenant_id : String) (env : Nat → CasEnv) (sid : String)
    (entry : AddSessionEntryReq) :
    Except StorageError (SessionIndex × AddSessionToIndexResponse) :=
  match casIndexLoop tenant_id env (addSessionMutator sid entry) CAS_MAX_RETRIES 0 with
  | .error e => .error e
  | .ok (index, already_exists) =>
    .ok (index, { success := true, already_exists := already_exists })

/-! ## OAuth token manager (token_manager.rs)

Time is Unix seconds (`Int`); `chrono::Duration::minutes(5)` is 300 s.
RFC 3339 formatting/parsing is abstracted by the `toRfc3339` /
`parseRfc3339` oracles. -/

/-- Cached token with expiration. -/
structure CachedToken where
  access_token : String
  expires_at : Option Int
deriving DecidableEq, Repr

/-- `CachedToken::is_expired`: `now ≥ expires_at - 5 min`, or no
expiration information at all ("always refresh to be safe"). -/
def CachedToken.is_expired (t : CachedToken) (now : Int) : Bool :=
  match t.expires_at with
  | some exp => exp - 300 ≤ now
  | none => true

/-- An OAuth connection row from D1 (`d1_client.rs`): the fields
`get_valid_token` consumes. -/
structure OAuthConnection where
  display_name : String
  access_token : String
  refresh_token : String
  token_expires_at : Option String
deriving DecidableEq, Repr

/-- Success payload of the refresh endpoint. -/
structure RefreshResponse where
  access_token : String
  expires_in : Nat
  refresh_token : Option String
deriving DecidableEq, Repr

/-- Environment of one `get_valid_token` call: the D1 lookup result, the
refresh endpoint outcome, and whether the D1 `update_tokens` write
succeeds (its failure is logged and ignored). -/
structure TokenEnv where
  d1Conn : Option OAuthConnection
  refreshResp : Except String RefreshResponse
  d1UpdateOk : Bool

/-- Observable outcome of one `get_valid_token` call: result, the cache
slot for this connection afterwards, the record persisted to D1 (if
any), and whether the catalog / the refresh endpoint were touched. -/
structure TokenCallResult where
  result : Except String String
  cache : Option CachedToken
  persisted : Option OAuthConnection
  usedCatalog : Bool
  usedRefresh : Bool
deriving DecidableEq, Repr

/-- `refresh_token` (token_manager.rs): on endpoint success,
`expires_at = now + expires_in`, keep the old refresh token unless the
response rotates it, persist to D1 (failure ignored), update the cache;
on endpoint failure, bail out without touching the cache. -/
def refresh_token_model (toRfc3339 : Int → String) (now : Int)
    (conn : OAuthConnection) (env : TokenEnv) (cache : Option CachedToken) :
    TokenCallResult :=
  match env.refreshResp with
  | .error m =>
    { result := .error m, cache := cache, persisted := none,
      usedCatalog := true, usedRefresh := true }
  | .ok r =>
    let expires_at : Int := now + (r.expires_in : Int)
    let new_refresh := r.refresh_token.getD conn.refresh_token
    { result := .ok r.access_token
      cache := some { access_token := r.access_token, expires_at := some expires_at }
      persisted :=
        if env.d1UpdateOk then
          some { conn with
                  access_token := r.access_token
                  refresh_token := new_refresh
                  token_expires_at := some (toRfc3339 expires_at) }
        else none
      usedCatalog := true
      usedRefresh := true }

/-- Steps 2-4 of `get_valid_token`: read the connection from D1, serve
its token when still outside the 5-minute margin, else refresh. -/
def tokenD1Path (parseRfc3339 : String → Option Int) (toRfc3339 : Int → String)
    (now : Int) (cache : Option CachedToken) (env : TokenEnv) : TokenCallResult :=
  match env.d1Conn with
  | none =>
    { result := .error "OAuth connection not found", cache := cache,
      persisted := none, usedCatalog := true, usedRefresh := false }
  | some conn =>
    let cached : CachedToken :=
      ⟨conn.access_token, conn.token_expires_at.bind parseRfc3339⟩
    if cached.is_expired now then refresh_token_model toRfc3339 now conn env cache
    else
      { result := .ok cached.access_token, cache := some cached, persisted := none,
        usedCatalog := true, usedRefresh := false }

/-- `get_valid_token` (token_manager.rs): step 1 serves a cached token
that is not within 5 minutes of expiry without touching D1 or the
network; otherwise fall through to the D1 path. -/
def get_valid_token (parseRfc3339 : String → Option Int) (toRfc3339 : Int → String)
    (now : Int) (cache : Option CachedToken) (env : TokenEnv) : TokenCallResult :=
  match cache with
  | some cached =>
    if cached.is_expired now then tokenD1Path parseRfc3339 toRfc3339 now cache env
    else
      { result := .ok cached.access_token, cache := cache, persisted := none,
        usedCatalog := false, usedRefresh := false }
  | none => tokenD1Path parseRfc3339 toRfc3339 now cache env

/-! ## Google Drive sync backend (sync.rs) -/

/-- Source types (core sync.rs). -/
inductive SourceType where
  | LocalFile
  | SharePoint
  | OneDrive
  | S3
  | R2
  | GoogleDrive
deriving DecidableEq, Repr

/-- Source descriptor as consumed by sync.rs: a typed
`gdrive://{connection_id}/{file_id}` URI.  (sync.rs addresses the source
through `source.uri`; the `SourceDescriptor` in the tree's core/sync.rs
carries path/file_id instead — the uses in sync.rs pin this shape.) -/
structure SourceDescriptor where
  source_type : SourceType
  uri : String
deriving DecidableEq, Repr

/-- Parsed Google Drive URI. -/
structure ParsedGDriveUri where
  connection_id : String
  file_id : String
deriving DecidableEq, Repr

/-- Split a character list at every slash (the character-level analogue
of splitting the URI path; `String`'s own splitters use well-founded
recursion and do not evaluate inside the kernel). -/
def splitOnSlash : List Char → List (List Char)
  | [] => [[]]
  | c :: rest =>
    if c = '/' then [] :: splitOnSlash rest
    else
      match splitOnSlash rest with
      | s :: ss => (c :: s) :: ss
      | [] => [[c]]

/-- Modelled from the spec: `parse_gdrive_uri` (imported from gdrive.rs,
which lacks it in the tree).  Per sync.rs's docs and §4.H, the expected
format is `gdrive://{connection_id}/{file_id}`, both parts non-empty. -/
def parse_gdrive_uri (uri : String) : Option ParsedGDriveUri :=
  let cs := uri.toList
  if "gdrive://".toList.isPrefixOf cs then
    match splitOnSlash (cs.drop 9) with
    | [c, f] =>
      if c ≠ [] ∧ f ≠ [] then some ⟨String.mk c, String.mk f⟩ else none
    | _ => none
  else none

/-- Transient per-session sync state (sync.rs). -/
structure TransientSyncState where
  source : Option SourceDescriptor
  auto_sync : Bool
  last_synced_at : Option Int
  has_pending_changes : Bool
  last_error : Option String
deriving DecidableEq, Repr

/-- Environment of one `sync_to_source` call: token-manager and Drive
upload outcomes, and the current time. -/
structure SyncEnv where
  tokenResult : Except String String
  uploadResult : Except String Unit
  now : Int

/-- `sync_to_source` (sync.rs) for one `(tenant, session)` slot: resolve
the registered source, parse its URI, fetch a token, upload.  On success
stamp `last_synced_at`, clear `has_pending_changes` and `last_error`.
Every failure path returns before the state update — the state is left
untouched. -/
def sync_to_source (env : SyncEnv) (st : Option TransientSyncState) :
    Except StorageError Int × Option TransientSyncState :=
  match st with
  | none => (.error (.Sync "No source registered"), st)
  | some s =>
    match s.source with
    | none => (.error (.Sync "No source configured"), st)
    | some src =>
      match parse_gdrive_uri src.uri with
      | none => (.error (.Sync ("Invalid Google Drive URI: " ++ src.uri)), st)
      | some _ =>
        match env.tokenResult with
        | .error e => (.error (.Sync ("Token error: " ++ e)), st)
        | .ok _ =>
          match env.uploadResult with
          | .error e => (.error (.Sync ("Google Drive upload failed: " ++ e)), st)
          | .ok _ =>
            (.ok env.now,
              some { s with
                      last_synced_at := some env.now
                      has_pending_changes := false
                      last_error := none })

/-- `record_sync_error` (sync.rs): store the message verbatim.  Marked
`#[allow(dead_code)]` in the source and invoked by no caller. -/
def record_sync_error (err : String) (st : Option TransientSyncState) :
    Option TransientSyncState :=
  match st with
  | some s => some { s with last_error := some err }
  | none => none

/-! ## Google Drive watch backend (watch.rs) -/

/-- Metadata snapshot of an external source (core watch.rs types are
absent from the tree; fields per their construction in
`fetch_metadata`). -/
structure SourceMetadata where
  size_bytes : Nat
  modified_at : Int
  etag : Option String
  version_id : Option String
  content_hash : Option (List Nat)
deriving DecidableEq, Repr

/-- Kind of an external change. -/
inductive ExternalChangeType where
  | Modified
  | Deleted
deriving DecidableEq, Repr

/-- External change event as built in `check_for_changes`. -/
structure ExternalChangeEvent where
  session_id : String
  change_type : ExternalChangeType
  old_metadata : Option SourceMetadata
  new_metadata : Option SourceMetadata
  detected_at : Int
  new_uri : Option String
deriving DecidableEq, Repr

/-- State for a watched Google Drive file (watch.rs). -/
structure WatchedSource where
  source : SourceDescriptor
  watch_id : String
  known_metadata : Option SourceMetadata
  poll_interval_secs : Nat
deriving DecidableEq, Repr

/-- Watch backend state for one `(tenant, session)` slot: the watched
source and the pending-event slot (never filled by any code path in
watch.rs itself). -/
structure WatchState where
  sources : Option WatchedSource
  pending_changes : Option ExternalChangeEvent
deriving DecidableEq, Repr

/-- `has_changed` (watch.rs): prefer `headRevisionId`, fall back to the
md5 checksum, last resort the `(size, mtime)` pair. -/
def has_changed (old cur : SourceMetadata) : Bool :=
  match old.version_id, cur.version_id with
  | some o, some n => o != n
  | _, _ =>
    match old.content_hash, cur.content_hash with
    | some o, some n => o != n
    | _, _ => old.size_bytes != cur.size_bytes || old.modified_at != cur.modified_at

/-- Environment of one `check_for_changes` poll: the token fetch and the
metadata fetch outcomes (`.ok none` = file gone), and the current time. -/
structure CheckEnv where
  tokenResult : Except String String
  fetchResult : Except String (Option SourceMetadata)
  now : Int

/-- `check_for_changes` (watch.rs): drain a pending event first; an
unwatched session yields `none`; a missing file with `known_metadata`
populated yields `Deleted`; changed metadata yields `Modified`;
otherwise `none`.  `known_metadata` is not updated by a poll. -/
def check_for_changes (session_id : String) (env : CheckEnv) (st : WatchState) :
    Except StorageError (Option ExternalChangeEvent) × WatchState :=
  match st.pending_changes with
  | some ev => (.ok (some ev), { st with pending_changes := none })
  | none =>
    match st.sources with
    | none => (.ok none, st)
    | some w =>
      match env.tokenResult with
      | .error e => (.error (.Watch ("Token error: " ++ e)), st)
      | .ok _ =>
        match env.fetchResult with
        | .error e => (.error (.Watch ("Google Drive API error: " ++ e)), st)
        | .ok none =>
          if w.known_metadata.isSome then
            (.ok (some ⟨session_id, .Deleted, w.known_metadata, none, env.now, none⟩),
              st)
          else (.ok none, st)
        | .ok (some current) =>
          match w.known_metadata with
          | some known =>
            if has_changed known current then
              (.ok (some ⟨session_id, .Modified, some known, some current,
                env.now, none⟩), st)
            else (.ok none, st)
          | none => (.ok none, st)

/-- `update_known_metadata` (watch.rs): overwrite the snapshot when the
session is watched. -/
def update_known_metadata (metadata : SourceMetadata) (st : WatchState) : WatchState :=
  match st.sources with
  | some w => { st with sources := some { w with known_metadata := some metadata } }
  | none => st

/-- `start_watch` (watch.rs), success path: install the watch with the
initial metadata snapshot; a non-positive interval falls back to the
default. -/
def start_watch (source : SourceDescriptor) (watch_id : String)
    (fetched : Option SourceMetadata) (poll_interval_secs default_interval : Nat)
    (st : WatchState) : WatchState :=
  { st with sources := some (⟨source, watch_id, fetched,
      if 0 < poll_interval_secs then poll_interval_secs else default_interval⟩ :
        WatchedSource) }

/-! ## Session-recovery proxy: forward retry loop and error mapping
(docx-mcp-sse-proxy: handlers.rs, error.rs) -/

/-- Maximum retry attempts for transient backend errors (handlers.rs
`MAX_RETRIES`; renamed here to avoid the storage-side constant). -/
def PROXY_MAX_RETRIES : Nat := 8

/-- Initial backoff delay in milliseconds (handlers.rs). -/
def INITIAL_BACKOFF_MS : Nat := 500

/-- Backoff cap in milliseconds (handlers.rs). -/
def MAX_BACKOFF_MS : Nat := 5000

/-- Application-level proxy errors (error.rs). -/
inductive ProxyError where
  | Unauthorized
  | InvalidToken
  | D1Error (msg : String)
  | BackendError (msg : String)
  | BackendUnavailable (msg : String) (retries : Nat)
  | JsonError (msg : String)
  | SessionRecoveryFailed (msg : String)
  | Internal (msg : String)
deriving DecidableEq, Repr

/-- `str::contains` — substring test. -/
def containsSubstr (s pat : String) : Bool :=
  s.toList.tails.any (fun t => pat.toList.isPrefixOf t)

/-- The thiserror-derived `Display` strings (error.rs). -/
def errMessage : ProxyError → String
  | .Unauthorized => "Authentication required"
  | .InvalidToken => "Invalid or expired PAT token"
  | .D1Error m => "D1 API error: " ++ m
  | .BackendError m => "Backend error: " ++ m
  | .BackendUnavailable m n =>
    "Backend temporarily unavailable after " ++ toString n ++ " retries: " ++ m
  | .JsonError m => "Invalid JSON: " ++ m
  | .SessionRecoveryFailed m => "Session recovery failed: " ++ m
  | .Internal m => "Internal error: " ++ m

/-- `ProxyError::into_response` (error.rs): HTTP status and stable code. -/
def statusAndCode : ProxyError → Nat × String
  | .Unauthorized => (401, "UNAUTHORIZED")
  | .InvalidToken => (401, "INVALID_TOKEN")
  | .D1Error _ => (502, "D1_ERROR")
  | .BackendError _ => (502, "BACKEND_ERROR")
  | .BackendUnavailable _ _ => (503, "BACKEND_UNAVAILABLE")
  | .SessionRecoveryFailed _ => (502, "SESSION_RECOVERY_FAILED")
  | .JsonError _ => (400, "INVALID_JSON")
  | .Internal _ => (500, "INTERNAL_ERROR")

/-- `is_retryable_status` (handlers.rs): 502 or 503. -/
def is_retryable_status (status : Nat) : Bool := status == 502 || status == 503

/-- `is_retryable_error` (handlers.rs): connection-level faults,
recognized by substrings of the reqwest error text. -/
def is_retryable_error : ProxyError → Bool
  | .BackendError msg =>
    containsSubstr msg "connection refused" ||
    containsSubstr msg "Connection refused" ||
    containsSubstr msg "connect error" ||
    containsSubstr msg "dns error" ||
    containsSubstr msg "timed out" ||
    containsSubstr msg "error sending request" ||
    containsSubstr msg "connection reset" ||
    containsSubstr msg "broken pipe"
  | _ => false

/-- Backoff slept before retry `attempt ≥ 1`:
`min(INITIAL_BACKOFF_MS · 2^(attempt-1), MAX_BACKOFF_MS)`. -/
def backoffDelay (attempt : Nat) : Nat :=
  min (INITIAL_BACKOFF_MS * 2 ^ (attempt - 1)) MAX_BACKOFF_MS

/-- Post-loop fallthrough of `send_to_backend_with_retry` (dead in
practice: the final attempt always returns). -/
def exhaustedError : Option ProxyError → ProxyError
  | some e => .BackendUnavailable (errMessage e) PROXY_MAX_RETRIES
  | none => .BackendUnavailable "All retries exhausted" PROXY_MAX_RETRIES

/-- The loop of `send_to_backend_with_retry` (handlers.rs).  The oracle
`send` is one `send_to_backend` call (attempt index ↦ response status or
error).  Returned: the final outcome, the number of sends performed, and
the backoff delays slept (ms).  A retryable 502/503 response or
connection-level error retries while `attempt < PROXY_MAX_RETRIES`; a
retryable failure on the final attempt is wrapped as
`BackendUnavailable`; everything else returns as-is. -/
def sendRetryLoop (send : Nat → Except ProxyError Nat) :
    Nat → Nat → Option ProxyError → (Except ProxyError Nat) × Nat × List Nat
  | 0, _, lastErr' => (.error (exhaustedError lastErr'), 0, [])
  | fuel + 1, attempt, _lastErr =>
    let delays0 : List Nat := if 0 < attempt then [backoffDelay attempt] else []
    match send attempt with
    | .ok status =>
      if is_retryable_status status ∧ attempt < PROXY_MAX_RETRIES then
        let next := sendRetryLoop send fuel (attempt + 1)
          (some (.BackendUnavailable ("Backend returned " ++ toString status)
            (attempt + 1)))
        (next.1, next.2.1 + 1, delays0 ++ next.2.2)
      else (.ok status, 1, delays0)
    | .error e =>
      if is_retryable_error e ∧ attempt < PROXY_MAX_RETRIES then
        let next := sendRetryLoop send fuel (attempt + 1) (some e)
        (next.1, next.2.1 + 1, delays0 ++ next.2.2)
      else if is_retryable_error e then
        (.error (.BackendUnavailable (errMessage e) PROXY_MAX_RETRIES), 1, delays0)
      else (.error e, 1, delays0)

/-- `send_to_backend_with_retry` (handlers.rs): attempts
`0..=PROXY_MAX_RETRIES`, unused `last_error` fallthrough after. -/
def send_to_backend_with_retry (send : Nat → Except ProxyError Nat) :
    (Except ProxyError Nat) × Nat × List Nat :=
  sendRetryLoop send (PROXY_MAX_RETRIES + 1) 0 none

/-! ## Theorems -/
@[simp] theorem natToLeBytes_length (k n : Nat) : (natToLeBytes k n).length = k := by
  induction k generalizing n with
  | zero => rfl
  | succ k ih => simp [natToLeBytes, ih]

theorem leBytesToNat_natToLeBytes (k n : Nat) :
    leBytesToNat (natToLeBytes k n) = n % 256 ^ k := by
  induction k generalizing n with
  | zero => simp [natToLeBytes, leBytesToNat, Nat.mod_one]
  | succ k ih =>
    simp only [natToLeBytes, leBytesToNat, ih]
    rw [Nat.pow_succ', Nat.mod_mul]

theorem leBytesToNat_natToLeBytes_of_lt {k n : Nat} (h : n < 256 ^ k) :
    leBytesToNat (natToLeBytes k n) = n := by
  rw [leBytesToNat_natToLeBytes, Nat.mod_eq_of_lt h]

theorem validUtf8Fuel_of_ascii {l : List Nat} (fuel : Nat)
    (hl : ∀ b ∈ l, b ≤ 127) (hf : l.length ≤ fuel) : validUtf8Fuel fuel l = true := by
  induction fuel generalizing l with
  | zero =>
    cases l with
    | nil => rfl
    | cons b rest => simp at hf
  | succ fuel ih =>
    cases l with
    | nil => rfl
    | cons b rest =>
      have hb : b ≤ 127 := hl b (by simp)
      simp only [validUtf8Fuel, if_pos hb]
      exact ih (fun x hx => hl x (by simp [hx])) (by simpa using Nat.le_of_succ_le_succ hf)

/-- All-ASCII byte strings are valid UTF-8. -/
theorem validUtf8_of_ascii {l : List Nat} (hl : ∀ b ∈ l, b ≤ 127) :
    validUtf8 l = true :=
  validUtf8Fuel_of_ascii l.length hl le_rfl

theorem joinNl_append (a b : List (List Nat)) :
    joinNl (a ++ b) = joinNl a ++ joinNl b := by
  induction a with
  | nil => simp [joinNl]
  | cons p ps ih => simp [joinNl, ih]

theorem joinNl_length_le (a b : List (List Nat)) (h : (joinNl (a ++ b)).length < 2 ^ 64) :
    (joinNl a).length < 2 ^ 64 := by
  rw [joinNl_append] at h
  simpa using lt_of_le_of_lt (by simp) h

theorem mem_joinNl {b : Nat} {ps : List (List Nat)} (h : b ∈ joinNl ps) :
    b = 10 ∨ ∃ p ∈ ps, b ∈ p := by
  induction ps with
  | nil => simp [joinNl] at h
  | cons p rest ih =>
    simp only [joinNl, List.mem_append, List.mem_cons] at h
    rcases h with h | h | h
    · exact Or.inr ⟨p, by simp, h⟩
    · exact Or.inl h
    · rcases ih h with h | ⟨q, hq, hb⟩
      · exact Or.inl h
      · exact Or.inr ⟨q, by simp [hq], hb⟩

theorem joinNl_ascii {ps : List (List Nat)} (h : ∀ p ∈ ps, ∀ b ∈ p, b ≤ 127) :
    ∀ b ∈ joinNl ps, b ≤ 127 := by
  intro b hb
  rcases mem_joinNl hb with rfl | ⟨p, hp, hbp⟩
  · omega
  · exact h p hp b hbp

theorem splitNl_ne_nil (l : List Nat) : splitNl l ≠ [] := by
  induction l with
  | nil => simp [splitNl]
  | cons b rest ih =>
    simp only [splitNl]
    split
    · simp
    · split <;> simp

/-- Splitting on LF after a prefix with no LF prepends that prefix. -/
theorem splitNl_no_nl_append (p rest : List Nat) (hp : 10 ∉ p) :
    splitNl (p ++ 10 :: rest) = p :: splitNl rest := by
  induction p with
  | nil => simp [splitNl]
  | cons b q ih =>
    have hb : ¬ b = 10 := fun h => hp (by simp [h])
    have hq : 10 ∉ q := fun h => hp (by simp [h])
    simp only [List.cons_append, splitNl, if_neg hb]
    rw [List.append_eq, ih hq]

theorem splitNl_joinNl (ps : List (List Nat)) (h : ∀ p ∈ ps, 10 ∉ p) :
    splitNl (joinNl ps) = ps ++ [[]] := by
  induction ps with
  | nil => simp [joinNl, splitNl]
  | cons p rest ih =>
    have hp : 10 ∉ p := h p (by simp)
    rw [joinNl, splitNl_no_nl_append p _ hp, ih (fun q hq => h q (by simp [hq]))]
    simp

theorem isEmpty_false_of_ne_nil {α : Type} {l : List α} (h : l ≠ []) :
    l.isEmpty = false := by
  cases l with
  | nil => exact absurd rfl h
  | cons a t => rfl

theorem endsWithNl_false_of_no_nl {p : List Nat} (hp : 10 ∉ p) :
    endsWithNl p = false := by
  unfold endsWithNl
  cases hl : p.getLast? with
  | none => rfl
  | some b =>
    have hmem : b ∈ p.getLast? := by rw [hl]; rfl
    have hb : b ∈ p := by
      rcases List.mem_getLast?_eq_getLast hmem with ⟨h, rfl⟩
      exact List.getLast_mem h
    have hne : ¬ b = 10 := fun h => hp (h ▸ hb)
    simpa using hne

theorem walAppendBytes_eq (entries : List WalEntry)
    (h : ∀ e ∈ entries, 10 ∉ e.patch_json) :
    ∀ base, walAppendBytes base entries =
      base ++ joinNl (entries.map (fun e => e.patch_json)) := by
  induction entries with
  | nil => intro base; simp [walAppendBytes, joinNl]
  | cons e rest ih =>
    intro base
    have he : endsWithNl e.patch_json = false :=
      endsWithNl_false_of_no_nl (h e (by simp))
    have step : walAppendBytes base (e :: rest) =
        walAppendBytes (base ++ e.patch_json ++ [10]) rest := by
      simp [walAppendBytes, he]
    rw [step, ih (fun x hx => h x (by simp [hx]))]
    simp [joinNl]

theorem lastAppendedPos_getLast? (es : List WalEntry) :
    ∀ x, es.foldl (fun _ e => e.position) x =
      match es.getLast? with
      | some e => e.position
      | none => x := by
  induction es with
  | nil => intro x; rfl
  | cons e rest ih =>
    intro x
    cases rest with
    | nil => simp [List.foldl]
    | cons r rs =>
      rw [List.getLast?_cons_cons]
      simpa [List.foldl] using ih e.position

theorem entriesFrom_append (a : List (List Nat)) :
    ∀ (pos : Nat) (b : List (List Nat)),
      entriesFrom pos (a ++ b) = entriesFrom pos a ++ entriesFrom (pos + a.length) b := by
  induction a with
  | nil => intro pos b; simp [entriesFrom]
  | cons p ps ih =>
    intro pos b
    have harith : pos + 1 + ps.length = pos + (ps.length + 1) := by omega
    simp only [List.cons_append, entriesFrom, List.append_eq, ih, List.length_cons, harith]

theorem entriesFrom_map_patch (ps : List (List Nat)) :
    ∀ pos, (entriesFrom pos ps).map (fun e => e.patch_json) = ps := by
  induction ps with
  | nil => intro pos; rfl
  | cons p rest ih => intro pos; simp [entriesFrom, ih]

theorem entriesFrom_length (ps : List (List Nat)) :
    ∀ pos, (entriesFrom pos ps).length = ps.length := by
  induction ps with
  | nil => intro pos; rfl
  | cons p rest ih => intro pos; simp [entriesFrom, ih]

theorem pos_le_of_mem_entriesFrom {e : WalEntry} (ps : List (List Nat)) :
    ∀ pos, e ∈ entriesFrom pos ps → pos ≤ e.position := by
  induction ps with
  | nil => intro pos h; simp [entriesFrom] at h
  | cons p rest ih =>
    intro pos h
    simp only [entriesFrom, List.mem_cons] at h
    rcases h with rfl | h
    · exact le_rfl
    · exact le_trans (by omega) (ih (pos + 1) h)

/-- Equation lemmas for one step of the scanning loop. -/
theorem readWalLoop_cons_blank (parseOk : List Nat → Bool) (f : Nat) (lim : Option Nat)
    {line : List Nat} (rest : List (List Nat)) (pos : Nat) (acc : List WalEntry)
    (h : (trimAscii line).isEmpty = true) :
    readWalLoop parseOk f lim (line :: rest) pos acc =
      readWalLoop parseOk f lim rest pos acc := by
  simp [readWalLoop, h]

theorem readWalLoop_cons_skip (parseOk : List Nat → Bool) (f : Nat) (lim : Option Nat)
    {line : List Nat} (rest : List (List Nat)) {pos : Nat} (acc : List WalEntry)
    (h : (trimAscii line).isEmpty = false) (h2 : ¬ f ≤ pos) :
    readWalLoop parseOk f lim (line :: rest) pos acc =
      readWalLoop parseOk f lim rest (pos + 1) acc := by
  simp [readWalLoop, h, h2]

theorem readWalLoop_cons_parsefail (parseOk : List Nat → Bool) (f : Nat) (lim : Option Nat)
    {line : List Nat} (rest : List (List Nat)) {pos : Nat} (acc : List WalEntry)
    (h : (trimAscii line).isEmpty = false) (h2 : f ≤ pos)
    (h3 : parseOk (trimAscii line) = false) :
    readWalLoop parseOk f lim (line :: rest) pos acc =
      .error (.Serialization "Failed to parse WAL entry") := by
  simp [readWalLoop, h, h2, h3]

theorem readWalLoop_cons_hit (parseOk : List Nat → Bool) (f : Nat) (lim : Option Nat)
    {line : List Nat} (rest : List (List Nat)) {pos : Nat} {acc : List WalEntry}
    (h : (trimAscii line).isEmpty = false) (h2 : f ≤ pos)
    (h3 : parseOk (trimAscii line) = true)
    (h4 : limitHit (acc.length + 1) lim = true) :
    readWalLoop parseOk f lim (line :: rest) pos acc =
      .ok (acc ++ [⟨pos, "", "", trimAscii line⟩], true) := by
  simp [readWalLoop, h, h2, h3, h4]

theorem readWalLoop_cons_push (parseOk : List Nat → Bool) (f : Nat) (lim : Option Nat)
    {line : List Nat} (rest : List (List Nat)) {pos : Nat} {acc : List WalEntry}
    (h : (trimAscii line).isEmpty = false) (h2 : f ≤ pos)
    (h3 : parseOk (trimAscii line) = true)
    (h4 : limitHit (acc.length + 1) lim = false) :
    readWalLoop parseOk f lim (line :: rest) pos acc =
      readWalLoop parseOk f lim rest (pos + 1) (acc ++ [⟨pos, "", "", trimAscii line⟩]) := by
  simp [readWalLoop, h, h2, h3, h4]

/-- A trailing blank segment is invisible to the scanning loop. -/
theorem readWalLoop_blank_tail (parseOk : List Nat → Bool) (f : Nat) (lim : Option Nat)
    (lines : List (List Nat)) :
    ∀ pos acc, readWalLoop parseOk f lim (lines ++ [[]]) pos acc =
      readWalLoop parseOk f lim lines pos acc := by
  have hblank : (trimAscii ([] : List Nat)).isEmpty = true := by simp [trimAscii]
  induction lines with
  | nil =>
    intro pos acc
    rw [List.nil_append, readWalLoop_cons_blank parseOk f lim [] pos acc hblank]
  | cons l rest ih =>
    intro pos acc
    rw [List.cons_append]
    by_cases ht : (trimAscii l).isEmpty
    · rw [readWalLoop_cons_blank parseOk f lim _ pos acc ht,
        readWalLoop_cons_blank parseOk f lim _ pos acc ht, ih]
    · have ht' : (trimAscii l).isEmpty = false := by simpa using ht
      by_cases hf : f ≤ pos
      · cases hp : parseOk (trimAscii l) with
        | false =>
          rw [readWalLoop_cons_parsefail parseOk f lim _ acc ht' hf hp,
            readWalLoop_cons_parsefail parseOk f lim _ acc ht' hf hp]
        | true =>
          cases hl : limitHit (acc.length + 1) lim with
          | false =>
            rw [readWalLoop_cons_push parseOk f lim _ ht' hf hp hl,
              readWalLoop_cons_push parseOk f lim _ ht' hf hp hl, ih]
          | true =>
            rw [readWalLoop_cons_hit parseOk f lim _ ht' hf hp hl,
              readWalLoop_cons_hit parseOk f lim _ ht' hf hp hl]
      · rw [readWalLoop_cons_skip parseOk f lim _ acc ht' hf,
          readWalLoop_cons_skip parseOk f lim _ acc ht' hf, ih]

/-- Scanning well-formed lines with no limit, starting at or past
`from_position`, yields one entry per line at consecutive positions. -/
theorem readWalLoop_none (parseOk : List Nat → Bool) (f : Nat)
    (lines : List (List Nat))
    (hwf : ∀ l ∈ lines, trimAscii l = l ∧ l ≠ [] ∧ parseOk l = true) :
    ∀ pos acc, f ≤ pos →
      readWalLoop parseOk f none lines pos acc =
        .ok (acc ++ entriesFrom pos lines, false) := by
  induction lines with
  | nil => intro pos acc h; simp [readWalLoop, entriesFrom]
  | cons l rest ih =>
    intro pos acc hpos
    obtain ⟨ht, hne, hp⟩ := hwf l (by simp)
    have htne : (trimAscii l).isEmpty = false := by
      rw [ht]; exact isEmpty_false_of_ne_nil hne
    have hp' : parseOk (trimAscii l) = true := by rw [ht]; exact hp
    rw [readWalLoop_cons_push parseOk f none rest htne hpos hp' rfl,
      ih (fun x hx => hwf x (by simp [hx])) (pos + 1) _ (by omega)]
    simp [entriesFrom, ht]

/-- Scanning well-formed lines with limit `L`: the limit check fires right
after the `L`-th entry is pushed, even when that entry is the last line. -/
theorem readWalLoop_some (parseOk : List Nat → Bool) (f L : Nat)
    (lines : List (List Nat))
    (hwf : ∀ l ∈ lines, trimAscii l = l ∧ l ≠ [] ∧ parseOk l = true) :
    ∀ pos acc, f ≤ pos → acc.length < L →
      readWalLoop parseOk f (some L) lines pos acc =
        if L ≤ acc.length + lines.length then
          .ok (acc ++ entriesFrom pos (lines.take (L - acc.length)), true)
        else
          .ok (acc ++ entriesFrom pos lines, false) := by
  induction lines with
  | nil =>
    intro pos acc hpos hacc
    rw [if_neg (by simp; omega)]
    simp [readWalLoop, entriesFrom]
  | cons l rest ih =>
    intro pos acc hpos hacc
    obtain ⟨ht, hne, hp⟩ := hwf l (by simp)
    have htne : (trimAscii l).isEmpty = false := by
      rw [ht]; exact isEmpty_false_of_ne_nil hne
    have hp' : parseOk (trimAscii l) = true := by rw [ht]; exact hp
    by_cases hHit : L ≤ acc.length + 1
    · have hEq : L = acc.length + 1 := by omega
      have hlim : limitHit (acc.length + 1) (some L) = true := by
        simp [limitHit]; omega
      rw [readWalLoop_cons_hit parseOk f (some L) rest htne hpos hp' hlim,
        if_pos (by simp; omega)]
      have htake : L - acc.length = 1 := by omega
      rw [htake]
      simp [entriesFrom, ht]
    · have hlim : limitHit (acc.length + 1) (some L) = false := by
        simp [limitHit]; omega
      rw [readWalLoop_cons_push parseOk f (some L) rest htne hpos hp' hlim,
        ih (fun x hx => hwf x (by simp [hx])) (pos + 1) _ (by omega)
          (by simp; omega)]
      have hsub : L - acc.length = (L - (acc.length + 1)) + 1 := by omega
      by_cases houter : L ≤ acc.length + (rest.length + 1)
      · rw [if_pos (by simp; omega), if_pos (by simp; omega), hsub]
        simp [entriesFrom, ht, List.take]
      · rw [if_neg (by simp; omega), if_neg (by simp; omega)]
        simp [entriesFrom, ht]

/-- Lines wholly before `from_position` are skipped, each consuming one
position. -/
theorem readWalLoop_skip (parseOk : List Nat → Bool) (f : Nat) (lim : Option Nat)
    (xs : List (List Nat)) (hwf : ∀ l ∈ xs, trimAscii l = l ∧ l ≠ []) :
    ∀ (ys : List (List Nat)) pos acc, pos + xs.length ≤ f →
      readWalLoop parseOk f lim (xs ++ ys) pos acc =
        readWalLoop parseOk f lim ys (pos + xs.length) acc := by
  induction xs with
  | nil => intro ys pos acc h; simp
  | cons x rest ih =>
    intro ys pos acc h
    obtain ⟨ht, hne⟩ := hwf x (by simp)
    have htne : (trimAscii x).isEmpty = false := by
      rw [ht]; exact isEmpty_false_of_ne_nil hne
    have hlt : ¬ f ≤ pos := by simp at h; omega
    rw [List.cons_append, readWalLoop_cons_skip parseOk f lim _ acc htne hlt,
      ih (fun l hl => hwf l (by simp [hl])) ys (pos + 1) acc (by simp at h ⊢; omega)]
    have harith : pos + 1 + rest.length = pos + (x :: rest).length := by simp; omega
    rw [harith]

/-- Well-formedness transfers from a patch predicate to the line scanner's
expectations. -/
theorem wf_lines_of_wf_patches {parseOk : List Nat → Bool} {ps : List (List Nat)}
    (hwf : ∀ p ∈ ps, WellFormedPatch parseOk p) :
    ∀ l ∈ ps, trimAscii l = l ∧ l ≠ [] ∧ parseOk l = true := by
  intro l hl
  obtain ⟨hne, _, _, ht, hp⟩ := hwf l hl
  exact ⟨ht, hne, hp⟩

/-- Reading a canonical blob reduces to scanning its payload lines (plus
the invisible trailing blank) from position 1. -/
theorem read_wal_walBlob (parseOk : List Nat → Bool) (ps : List (List Nat))
    (hwf : ∀ p ∈ ps, WellFormedPatch parseOk p)
    (hlen : (joinNl ps).length < 2 ^ 64) (f : Nat) (lim : Option Nat) :
    read_wal parseOk (some (walBlob ps)) f lim =
      readWalLoop parseOk f lim (ps ++ [[]]) 1 [] := by
  have h8 : (natToLeBytes 8 (joinNl ps).length).length = 8 := natToLeBytes_length 8 _
  have hlenblob : (walBlob ps).length = 8 + (joinNl ps).length := by
    simp [walBlob]
  have htake : (walBlob ps).take 8 = natToLeBytes 8 (joinNl ps).length := by
    rw [walBlob, List.take_left' h8]
  have hdrop : (walBlob ps).drop 8 = joinNl ps := by
    rw [walBlob, List.drop_left' h8]
  have hdl : leBytesToNat ((walBlob ps).take 8) = (joinNl ps).length := by
    rw [htake, leBytesToNat_natToLeBytes_of_lt]
    exact lt_of_lt_of_le hlen (by norm_num)
  cases hps : ps with
  | nil =>
    subst hps
    have : (joinNl ([] : List (List Nat))).length = 0 := by simp [joinNl]
    simp only [read_wal, hlenblob, this]
    rw [if_neg (by omega), if_pos (by rw [hdl, this])]
    have hblank : (trimAscii ([] : List Nat)).isEmpty = true := by simp [trimAscii]
    rw [List.nil_append, readWalLoop_cons_blank parseOk f lim [] 1 [] hblank]
    rfl
  | cons p rest =>
    subst hps
    have hjne : (joinNl (p :: rest)).length ≠ 0 := by
      simp only [joinNl, List.length_append, List.length_cons]
      omega
    simp only [read_wal]
    rw [if_neg (by omega), if_neg (by rw [hdl]; exact hjne)]
    have hmin : min (8 + leBytesToNat ((walBlob (p :: rest)).take 8))
        (walBlob (p :: rest)).length = 8 + (joinNl (p :: rest)).length := by
      rw [hdl, hlenblob, min_self]
    rw [hmin]
    have hjson : ((walBlob (p :: rest)).drop 8).take (8 + (joinNl (p :: rest)).length - 8) =
        joinNl (p :: rest) := by
      rw [hdrop]
      have : 8 + (joinNl (p :: rest)).length - 8 = (joinNl (p :: rest)).length := by omega
      rw [this, List.take_length]
    rw [hjson]
    have hascii : ∀ b ∈ joinNl (p :: rest), b ≤ 127 :=
      joinNl_ascii (fun q hq b hb => (hwf q hq).2.1 b hb)
    rw [if_pos (validUtf8_of_ascii hascii)]
    rw [splitNl_joinNl _ (fun q hq => (hwf q hq).2.2.1)]

/-- Appending well-formed entries to a canonical blob appends their
payload lines. -/
theorem cas_append_wal_blob (ps : List (List Nat)) (entries : List WalEntry)
    (h10 : ∀ e ∈ entries, 10 ∉ e.patch_json) (hne : entries ≠ [])
    (hlen : (joinNl ps).length < 2 ^ 64) :
    cas_append_wal (some (walBlob ps)) entries =
      (some (walBlob (ps ++ entries.map (fun e => e.patch_json))), lastAppendedPos entries) := by
  have h8 : (natToLeBytes 8 (joinNl ps).length).length = 8 := natToLeBytes_length 8 _
  have hlenblob : (walBlob ps).length = 8 + (joinNl ps).length := by simp [walBlob]
  have htake : (walBlob ps).take 8 = natToLeBytes 8 (joinNl ps).length := by
    rw [walBlob, List.take_left' h8]
  have hdl : leBytesToNat ((walBlob ps).take 8) = (joinNl ps).length := by
    rw [htake, leBytesToNat_natToLeBytes_of_lt]
    exact lt_of_lt_of_le hlen (by norm_num)
  simp only [cas_append_wal, isEmpty_false_of_ne_nil hne, Bool.false_eq_true, if_false]
  rw [if_pos (by omega), hdl, ← hlenblob, min_self, List.take_length,
    walAppendBytes_eq entries h10]
  have hjoin : walBlob ps ++ joinNl (entries.map fun e => e.patch_json) =
      natToLeBytes 8 (joinNl ps).length ++ joinNl (ps ++ entries.map fun e => e.patch_json) := by
    rw [walBlob, joinNl_append, List.append_assoc]
  rw [hjoin]
  have hlen2 : (natToLeBytes 8 (joinNl ps).length ++
      joinNl (ps ++ entries.map fun e => e.patch_json)).length - 8 =
      (joinNl (ps ++ entries.map fun e => e.patch_json)).length := by
    simp
  rw [hlen2, List.drop_left' h8, walBlob]

/-- First append on an absent WAL object creates the canonical blob. -/
theorem cas_append_wal_none (entries : List WalEntry)
    (h10 : ∀ e ∈ entries, 10 ∉ e.patch_json) (hne : entries ≠ []) :
    cas_append_wal none entries =
      (some (walBlob (entries.map (fun e => e.patch_json))), lastAppendedPos entries) := by
  have h8 : (List.replicate 8 (0 : Nat)).length = 8 := by simp
  simp only [cas_append_wal, isEmpty_false_of_ne_nil hne, Bool.false_eq_true, if_false]
  rw [walAppendBytes_eq entries h10]
  have hlen2 : (List.replicate 8 (0 : Nat) ++
      joinNl (entries.map fun e => e.patch_json)).length - 8 =
      (joinNl (entries.map fun e => e.patch_json)).length := by simp
  rw [hlen2, List.drop_left' h8, walBlob]

theorem callPatches_cons (es : List WalEntry) (rest : List (List WalEntry)) :
    callPatches (es :: rest) = es.map (fun e => e.patch_json) ++ callPatches rest := by
  simp [callPatches]

theorem appendCalls_blob (calls : List (List WalEntry)) :
    ∀ ps : List (List Nat),
      (∀ es ∈ calls, es ≠ []) →
      (∀ es ∈ calls, ∀ e ∈ es, 10 ∉ e.patch_json) →
      (joinNl (ps ++ callPatches calls)).length < 2 ^ 64 →
      appendCalls (some (walBlob ps)) calls =
        (some (walBlob (ps ++ callPatches calls)), calls.map lastAppendedPos) := by
  induction calls with
  | nil =>
    intro ps _ _ _
    simp [appendCalls, callPatches]
  | cons es rest ih =>
    intro ps h1 h2 hlen
    have hassoc : ps ++ callPatches (es :: rest) =
        (ps ++ es.map (fun e => e.patch_json)) ++ callPatches rest := by
      rw [callPatches_cons, List.append_assoc]
    have hblen : (joinNl ps).length < 2 ^ 64 :=
      joinNl_length_le ps _ (by rw [← hassoc] at *; exact hlen)
    have hstep := cas_append_wal_blob ps es (h2 es (by simp)) (h1 es (by simp)) hblen
    have hre := ih (ps ++ es.map (fun e => e.patch_json))
      (fun x hx => h1 x (by simp [hx])) (fun x hx => h2 x (by simp [hx]))
      (by rw [← hassoc]; exact hlen)
    simp only [appendCalls, hstep, hre, hassoc, List.map_cons]

/-- The returned value of a non-empty append is the `position` field of
its last entry. -/
theorem lastAppendedPos_eq_getLast {es : List WalEntry} (h : es ≠ []) :
    ∃ e, es.getLast? = some e ∧ lastAppendedPos es = e.position := by
  refine ⟨es.getLast h, List.getLast?_eq_getLast_of_ne_nil h, ?_⟩
  rw [lastAppendedPos, lastAppendedPos_getLast? es 0,
    List.getLast?_eq_getLast_of_ne_nil h]

/-! ## Truncation support -/

theorem patch_mem_of_mem_entriesFrom {e : WalEntry} (ps : List (List Nat)) :
    ∀ pos, e ∈ entriesFrom pos ps → e.patch_json ∈ ps := by
  induction ps with
  | nil => intro pos h; simp [entriesFrom] at h
  | cons p rest ih =>
    intro pos h
    simp only [entriesFrom, List.mem_cons] at h
    rcases h with rfl | h
    · simp
    · simp [ih (pos + 1) h]

theorem entriesFrom_filter_gt_nil (k : Nat) (ps : List (List Nat)) :
    ∀ pos, k < pos →
      (entriesFrom pos ps).filter (fun e => e.position ≤ k) = [] := by
  induction ps with
  | nil => intro pos h; rfl
  | cons p rest ih =>
    intro pos h
    have hn : ¬ (pos ≤ k) := by omega
    simp only [entriesFrom, List.filter]
    simp [hn, ih (pos + 1) (by omega)]

theorem entriesFrom_filter_le (k : Nat) (ps : List (List Nat)) :
    ∀ pos, (entriesFrom pos ps).filter (fun e => e.position ≤ k) =
      entriesFrom pos (ps.take (k + 1 - pos)) := by
  induction ps with
  | nil => intro pos; simp [entriesFrom]
  | cons p rest ih =>
    intro pos
    by_cases h : pos ≤ k
    · have h1 : k + 1 - pos = (k + 1 - (pos + 1)) + 1 := by omega
      rw [h1]
      simp only [entriesFrom, List.filter, List.take]
      simp [h, ih (pos + 1)]
    · have h1 : k + 1 - pos = 0 := by omega
      rw [h1]
      simp only [List.take, entriesFrom]
      have htail := entriesFrom_filter_gt_nil k rest (pos + 1) (by omega)
      simp only [entriesFrom, List.filter] at *
      simp [h, htail]

theorem entriesFrom_filter_not_le_length (k : Nat) (ps : List (List Nat)) :
    ∀ pos, ((entriesFrom pos ps).filter (fun e => !decide (e.position ≤ k))).length =
      ps.length - (k + 1 - pos) := by
  induction ps with
  | nil => intro pos; simp [entriesFrom]
  | cons p rest ih =>
    intro pos
    simp only [entriesFrom]
    rw [List.filter_cons]
    by_cases h : pos ≤ k
    · rw [if_neg (by simp [h])]
      rw [ih (pos + 1)]
      simp only [List.length_cons]
      omega
    · rw [if_pos (by simp [h])]
      simp only [List.length_cons]
      rw [ih (pos + 1)]
      omega

/-! ## Claims C1 and C2 -/

/-- C1: starting from an empty WAL, any sequence of successful `AppendWal`
calls with non-empty entry lists (whose payloads are well-formed single
JSON lines, per the spec's data model) followed by
`ReadWal(from_position = 1, limit = None)` yields exactly the appended
payloads in append order at contiguous positions starting from 1; each
call returns the `position` of the last entry it appended, and an append
with an empty entry list is a no-op returning 0. -/
theorem C1_wal_append_read (parseOk : List Nat → Bool) (calls : List (List WalEntry))
    (h1 : ∀ es ∈ calls, es ≠ [])
    (h2 : ∀ es ∈ calls, ∀ e ∈ es, WellFormedPatch parseOk e.patch_json)
    (hlen : (joinNl (callPatches calls)).length < 2 ^ 64) :
    read_wal parseOk (appendCalls none calls).1 1 none =
        .ok (entriesFrom 1 (callPatches calls), false)
    ∧ (appendCalls none calls).2 = calls.map lastAppendedPos
    ∧ (∀ es ∈ calls, ∃ e, es.getLast? = some e ∧ lastAppendedPos es = e.position)
    ∧ (∀ s, cas_append_wal s [] = (s, 0)) := by
  have hwfp : ∀ p ∈ callPatches calls, WellFormedPatch parseOk p := by
    intro p hp
    rw [callPatches] at hp
    rcases List.mem_flatten.mp hp with ⟨m, hm, hpm⟩
    rcases List.mem_map.mp hm with ⟨es, hes, rfl⟩
    rcases List.mem_map.mp hpm with ⟨e, he, rfl⟩
    exact h2 es hes e he
  have h10 : ∀ es ∈ calls, ∀ e ∈ es, 10 ∉ e.patch_json := by
    intro es hes e he
    exact (h2 es hes e he).2.2.1
  have hmain : read_wal parseOk (appendCalls none calls).1 1 none =
        .ok (entriesFrom 1 (callPatches calls), false) ∧
      (appendCalls none calls).2 = calls.map lastAppendedPos := by
    cases calls with
    | nil =>
      constructor
      · simp [appendCalls, read_wal, callPatches, entriesFrom]
      · simp [appendCalls]
    | cons es rest =>
      have hstep := cas_append_wal_none es (h10 es (by simp)) (h1 es (by simp))
      have hre := appendCalls_blob rest (es.map (fun e => e.patch_json))
        (fun x hx => h1 x (by simp [hx])) (fun x hx => h10 x (by simp [hx]))
        (by rw [← callPatches_cons]; exact hlen)
      have happ : appendCalls none (es :: rest) =
          (some (walBlob (callPatches (es :: rest))), (es :: rest).map lastAppendedPos) := by
        simp only [appendCalls, hstep, hre, callPatches_cons, List.map_cons]
      rw [happ]
      constructor
      · rw [read_wal_walBlob parseOk _ hwfp hlen 1 none, readWalLoop_blank_tail,
          readWalLoop_none parseOk 1 _ (wf_lines_of_wf_patches hwfp) 1 [] le_rfl]
        simp
      · rfl
  refine ⟨hmain.1, hmain.2, ?_, ?_⟩
  · intro es hes
    exact lastAppendedPos_eq_getLast (h1 es hes)
  · intro s
    simp [cas_append_wal]

/-- Witness for C1 at a concrete two-call sequence with payloads
`"{}"` and `"[]"` and caller positions 1 and 7. -/
theorem C1_wal_append_read_witness :
    read_wal (fun _ => true)
        (appendCalls none [[⟨1, "set", "a", [123, 125]⟩], [⟨7, "set", "b", [91, 93]⟩]]).1
        1 none =
      .ok ([⟨1, "", "", [123, 125]⟩, ⟨2, "", "", [91, 93]⟩], false) ∧
    (appendCalls none [[⟨1, "set", "a", [123, 125]⟩], [⟨7, "set", "b", [91, 93]⟩]]).2 =
      [1, 7] := by
  have h := C1_wal_append_read (fun _ => true)
    [[⟨1, "set", "a", [123, 125]⟩], [⟨7, "set", "b", [91, 93]⟩]]
    (by decide) (by decide) (by decide)
  exact ⟨h.1, h.2.1⟩

/-- C2: over a WAL holding `n` entries at positions `1..n`,
`TruncateWal(keep_count = k)` returns the number of entries at positions
greater than `k` (0, with the blob left unrewritten, when `k ≥ n`), a
subsequent read yields exactly the first `k` entries, and entries
appended afterwards land at positions strictly greater than every
remaining position. -/
theorem C2_wal_truncate (parseOk : List Nat → Bool) (ps : List (List Nat)) (k : Nat)
    (hwf : ∀ p ∈ ps, WellFormedPatch parseOk p)
    (hlen : (joinNl ps).length < 2 ^ 64) :
    (ps.length ≤ k → truncate_wal parseOk (some (walBlob ps)) k =
        .ok (some (walBlob ps), 0))
    ∧ (k < ps.length → truncate_wal parseOk (some (walBlob ps)) k =
        .ok (some (walBlob (ps.take k)), ps.length - k))
    ∧ read_wal parseOk (some (walBlob (ps.take k))) 1 none =
        .ok (entriesFrom 1 (ps.take k), false)
    ∧ (∀ es : List WalEntry, es ≠ [] →
        (∀ e ∈ es, WellFormedPatch parseOk e.patch_json) →
        (joinNl (ps.take k ++ es.map (fun e => e.patch_json))).length < 2 ^ 64 →
        read_wal parseOk (cas_append_wal (some (walBlob (ps.take k))) es).1 1 none =
          .ok (entriesFrom 1 (ps.take k) ++
            entriesFrom ((ps.take k).length + 1) (es.map (fun e => e.patch_json)), false)
        ∧ ∀ e ∈ entriesFrom ((ps.take k).length + 1) (es.map (fun e => e.patch_json)),
            (ps.take k).length < e.position) := by
  have hwft : ∀ p ∈ ps.take k, WellFormedPatch parseOk p :=
    fun p hp => hwf p (List.mem_of_mem_take hp)
  have hlent : (joinNl (ps.take k)).length < 2 ^ 64 :=
    joinNl_length_le (ps.take k) (ps.drop k)
      (by rw [List.take_append_drop]; exact hlen)
  have hread0 : read_wal parseOk (some (walBlob ps)) 0 none =
      .ok (entriesFrom 1 ps, false) := by
    rw [read_wal_walBlob parseOk ps hwf hlen 0 none, readWalLoop_blank_tail,
      readWalLoop_none parseOk 0 ps (wf_lines_of_wf_patches hwf) 1 [] (by omega)]
    simp
  have htrunc : truncate_wal parseOk (some (walBlob ps)) k =
      .ok (cas_truncate_wal (some (walBlob ps)) k (entriesFrom 1 ps)) := by
    rw [truncate_wal, hread0]
  have hcomp : (not ∘ fun e : WalEntry => decide (e.position ≤ k)) =
      (fun e : WalEntry => !decide (e.position ≤ k)) := rfl
  have hremoved : ((entriesFrom 1 ps).filter
      (fun e => !decide (e.position ≤ k))).length = ps.length - k := by
    rw [entriesFrom_filter_not_le_length k ps 1, show k + 1 - 1 = k from rfl]
  have hkept : (entriesFrom 1 ps).filter (fun e => e.position ≤ k) =
      entriesFrom 1 (ps.take k) := by
    rw [entriesFrom_filter_le k ps 1, show k + 1 - 1 = k from rfl]
  refine ⟨?_, ?_, ?_, ?_⟩
  · intro hk
    rw [htrunc]
    simp only [cas_truncate_wal, List.partition_eq_filter_filter, hcomp, hremoved]
    rw [if_pos (by omega)]
  · intro hk
    rw [htrunc]
    simp only [cas_truncate_wal, List.partition_eq_filter_filter, hcomp, hremoved, hkept]
    rw [if_neg (by omega)]
    have h10k : ∀ e ∈ entriesFrom 1 (ps.take k), 10 ∉ e.patch_json := by
      intro e he
      exact (hwft e.patch_json (patch_mem_of_mem_entriesFrom (ps.take k) 1 he)).2.2.1
    rw [walAppendBytes_eq _ h10k, entriesFrom_map_patch]
    have h8 : (List.replicate 8 (0 : Nat)).length = 8 := by simp
    have hlen2 : (List.replicate 8 (0 : Nat) ++ joinNl (ps.take k)).length - 8 =
        (joinNl (ps.take k)).length := by simp
    rw [hlen2, List.drop_left' h8, ← walBlob]
  · rw [read_wal_walBlob parseOk _ hwft hlent 1 none, readWalLoop_blank_tail,
      readWalLoop_none parseOk 1 _ (wf_lines_of_wf_patches hwft) 1 [] le_rfl]
    simp
  · intro es hne hwfe hlen2
    have h10e : ∀ e ∈ es, 10 ∉ e.patch_json := fun e he => (hwfe e he).2.2.1
    have happ := cas_append_wal_blob (ps.take k) es h10e hne hlent
    rw [happ]
    have hwfall : ∀ p ∈ ps.take k ++ es.map (fun e => e.patch_json),
        WellFormedPatch parseOk p := by
      intro p hp
      rcases List.mem_append.mp hp with hp | hp
      · exact hwft p hp
      · rcases List.mem_map.mp hp with ⟨e, he, rfl⟩
        exact hwfe e he
    constructor
    · rw [read_wal_walBlob parseOk _ hwfall hlen2 1 none, readWalLoop_blank_tail,
        readWalLoop_none parseOk 1 _ (wf_lines_of_wf_patches hwfall) 1 [] le_rfl]
      rw [entriesFrom_append]
      have : 1 + (ps.take k).length = (ps.take k).length + 1 := by omega
      rw [this]
      simp
    · intro e he
      have := pos_le_of_mem_entriesFrom (es.map (fun x => x.patch_json))
        ((ps.take k).length + 1) he
      omega

/-- Witness for C2: three entries, keep 2, then append one more. -/
theorem C2_wal_truncate_witness :
    truncate_wal (fun _ => true) (some (walBlob [[97], [98], [99]])) 2 =
      .ok (some (walBlob [[97], [98]]), 1) ∧
    read_wal (fun _ => true) (some (walBlob ([[97], [98], [99]].take 2))) 1 none =
      .ok ([⟨1, "", "", [97]⟩, ⟨2, "", "", [98]⟩], false) := by
  have h := C2_wal_truncate (fun _ => true) [[97], [98], [99]] 2
    (by decide) (by decide)
  exact ⟨by simpa using h.2.1 (by decide), by simpa using h.2.2.1⟩

/-! ## Claims C7 and C9 -/

/-- C7 as stated is false; this is the amended claim: for `L ≥ 1`,
`has_more` is true iff the WAL holds at least `L` entries at positions
`≥ from_position` — the check fires right when the limit is filled,
including when the `L`-th returned entry is the final entry of the WAL. -/
theorem C7_read_has_more (parseOk : List Nat → Bool) (ps : List (List Nat))
    (f L : Nat) (hwf : ∀ p ∈ ps, WellFormedPatch parseOk p)
    (hlen : (joinNl ps).length < 2 ^ 64) (hf : 1 ≤ f) (hL : 1 ≤ L) :
    read_wal parseOk (some (walBlob ps)) f (some L) =
      if L ≤ ps.length - (f - 1) then
        .ok (entriesFrom f ((ps.drop (f - 1)).take L), true)
      else
        .ok (entriesFrom f (ps.drop (f - 1)), false) := by
  rw [read_wal_walBlob parseOk ps hwf hlen f (some L), readWalLoop_blank_tail]
  have hwfl : ∀ l ∈ ps.take (f - 1), trimAscii l = l ∧ l ≠ [] := by
    intro l hl
    have h := hwf l (List.mem_of_mem_take hl)
    exact ⟨h.2.2.2.1, h.1⟩
  have htklen : (ps.take (f - 1)).length = min (f - 1) ps.length :=
    List.length_take _ _
  have hlines : readWalLoop parseOk f (some L) ps 1 [] =
      readWalLoop parseOk f (some L) (ps.drop (f - 1)) (1 + (ps.take (f - 1)).length) [] := by
    conv_lhs => rw [← List.take_append_drop (f - 1) ps]
    exact readWalLoop_skip parseOk f (some L) (ps.take (f - 1)) hwfl
      (ps.drop (f - 1)) 1 [] (by rw [htklen]; omega)
  rw [hlines]
  by_cases hcase : f - 1 ≤ ps.length
  · have hpos0 : 1 + (ps.take (f - 1)).length = f := by rw [htklen]; omega
    rw [hpos0]
    have hwfd : ∀ l ∈ ps.drop (f - 1), trimAscii l = l ∧ l ≠ [] ∧ parseOk l = true :=
      fun l hl => wf_lines_of_wf_patches hwf l (List.mem_of_mem_drop hl)
    rw [readWalLoop_some parseOk f L (ps.drop (f - 1)) hwfd f [] le_rfl (by simpa using hL)]
    rw [List.length_drop]
    simp only [List.length_nil, Nat.zero_add, List.nil_append, Nat.sub_zero]
  · have hdrop : ps.drop (f - 1) = [] :=
      List.drop_eq_nil_of_le (by omega)
    rw [hdrop]
    have hsub : ps.length - (f - 1) = 0 := by omega
    rw [hsub, if_neg (by omega)]
    rfl

/-- Counterexample to C7 as stated: a one-entry WAL read with
`from_position = 1, limit = Some 1` returns `has_more = true` although no
entry at a position ≥ 1 remains beyond the one returned. -/
theorem C7_counterexample :
    read_wal (fun _ => true) (some (walBlob [[97]])) 1 (some 1) =
      .ok ([⟨1, "", "", [97]⟩], true) ∧
    read_wal (fun _ => true) (some (walBlob [[97]])) 2 none = .ok ([], false) := by
  constructor <;> decide

/-- Witness for the amended C7: two entries, read from position 2 with
limit 1 — the limit is filled by the final entry and `has_more` is true. -/
theorem C7_read_has_more_witness :
    read_wal (fun _ => true) (some (walBlob [[97], [98]])) 2 (some 1) =
      .ok ([⟨2, "", "", [98]⟩], true) := by
  have h := C7_read_has_more (fun _ => true) [[97], [98]] 2 1
    (by decide) (by decide) (by decide) (by decide)
  rw [h]
  decide

/-- Reading a blob with an arbitrary header value `L < 2 ^ 64`: the JSONL
region is the payload clipped by the header. -/
theorem read_wal_header (parseOk : List Nat → Bool) (L : Nat) (payload : List Nat)
    (f : Nat) (lim : Option Nat) (hlt : L < 2 ^ 64) :
    read_wal parseOk (some (natToLeBytes 8 L ++ payload)) f lim =
      if L = 0 then .ok ([], false)
      else if validUtf8 (payload.take (min (8 + L) (8 + payload.length) - 8)) then
        readWalLoop parseOk f lim
          (splitNl (payload.take (min (8 + L) (8 + payload.length) - 8))) 1 []
      else .error (.IoError "WAL is not valid UTF-8") := by
  have h8 : (natToLeBytes 8 L).length = 8 := natToLeBytes_length 8 L
  have hlenL : (natToLeBytes 8 L ++ payload).length = 8 + payload.length := by simp
  have hdl : leBytesToNat ((natToLeBytes 8 L ++ payload).take 8) = L := by
    rw [List.take_left' h8,
      leBytesToNat_natToLeBytes_of_lt (lt_of_lt_of_le hlt (by norm_num))]
  simp only [read_wal]
  rw [if_neg (by rw [hlenL]; omega), hdl, hlenL, List.drop_left' h8]

/-- Counterexample to C9 as stated: the 8-byte blob `0xFF × 8` decodes
a header of `2 ^ 64 - 1`; the source's usize computation
`(8 + data_len).min(len)` wraps to 7, below the slice start 8, so
`&raw_data[8..end]` panics — `read_wal` neither clips this header to the
available bytes nor yields `([], false)` there. -/
theorem C9_counterexample :
    leBytesToNat (List.replicate 8 255) = 2 ^ 64 - 1 ∧
    8 ≤ (List.replicate 8 (255 : Nat)).length ∧
    leBytesToNat ((List.replicate 8 (255 : Nat)).take 8) ≠ 0 ∧
    usizeEndIndex (leBytesToNat (List.replicate 8 255))
      (List.replicate 8 (255 : Nat)).length = 7 ∧
    usizeEndIndex (leBytesToNat (List.replicate 8 255))
      (List.replicate 8 (255 : Nat)).length < 8 := by
  refine ⟨by decide, by decide, by decide, by decide, by decide⟩

/-- C9 (amended): `read_wal`'s degenerate-blob behaviour, for header
values that do not overflow the source's usize addition: a blob shorter
than 8 bytes, or one whose header decodes to 0, yields `([], false)`
rather than an error; a header length exceeding the available payload is
clipped to the bytes present provided `8 + data_len < 2 ^ 64` (at or
beyond, the source wraps and panics — see the counterexample); a blank
payload line is skipped without consuming a position; and within that
region the model's clip coincides with the source's usize computation. -/
theorem C9_read_wal_degenerate (parseOk : List Nat → Bool) :
    (∀ (raw : List Nat) (f : Nat) (lim : Option Nat), raw.length < 8 →
      read_wal parseOk (some raw) f lim = .ok ([], false))
    ∧ (∀ (raw : List Nat) (f : Nat) (lim : Option Nat), 8 ≤ raw.length →
        leBytesToNat (raw.take 8) = 0 →
        read_wal parseOk (some raw) f lim = .ok ([], false))
    ∧ (∀ (L : Nat) (payload : List Nat) (f : Nat) (lim : Option Nat),
        payload.length ≤ L → 8 + L < 2 ^ 64 →
        read_wal parseOk (some (natToLeBytes 8 L ++ payload)) f lim =
          read_wal parseOk (some (natToLeBytes 8 payload.length ++ payload)) f lim)
    ∧ (∀ (l : List Nat) (lines : List (List Nat)) (f : Nat) (lim : Option Nat)
        (pos : Nat) (acc : List WalEntry), trimAscii l = [] →
        readWalLoop parseOk f lim (l :: lines) pos acc =
          readWalLoop parseOk f lim lines pos acc)
    ∧ (∀ (data_len blobLen : Nat), 8 + data_len < 2 ^ 64 →
        usizeEndIndex data_len blobLen = min (8 + data_len) blobLen) := by
  refine ⟨?_, ?_, ?_, ?_, ?_⟩
  · intro raw f lim h
    simp only [read_wal]
    rw [if_pos h]
  · intro raw f lim h h0
    simp only [read_wal]
    rw [if_neg (by omega), if_pos h0]
  · intro L payload f lim hle hov
    have hlt : L < 2 ^ 64 := by omega
    have hplt : payload.length < 2 ^ 64 := lt_of_le_of_lt hle hlt
    rw [read_wal_header parseOk L payload f lim hlt,
      read_wal_header parseOk payload.length payload f lim hplt]
    have hminL : min (8 + L) (8 + payload.length) - 8 = payload.length := by omega
    have hminP : min (8 + payload.length) (8 + payload.length) - 8 =
        payload.length := by omega
    rw [hminL, hminP, List.take_length]
    by_cases hp0 : payload.length = 0
    · have hpayload : payload = [] := List.length_eq_zero.mp hp0
      subst hpayload
      rw [if_pos (show ([] : List Nat).length = 0 from rfl)]
      by_cases hL0 : L = 0
      · rw [if_pos hL0]
      · rw [if_neg hL0, if_pos (show validUtf8 [] = true from rfl)]
        rfl
    · rw [if_neg hp0, if_neg (by omega)]
  · intro l lines f lim pos acc ht
    exact readWalLoop_cons_blank parseOk f lim lines pos acc (by rw [ht]; rfl)
  · intro data_len blobLen h
    rw [usizeEndIndex, Nat.mod_eq_of_lt h]

/-- Witness for C9: a 2-byte blob, and a header claiming 5 bytes over a
1-byte payload behaving like a correct 1-byte header. -/
theorem C9_read_wal_degenerate_witness :
    read_wal (fun _ => true) (some [7, 7]) 3 none = .ok ([], false) ∧
    read_wal (fun _ => true) (some (natToLeBytes 8 5 ++ [97])) 1 none =
      read_wal (fun _ => true) (some (natToLeBytes 8 1 ++ [97])) 1 none := by
  refine ⟨(C9_read_wal_degenerate (fun _ => true)).1 [7, 7] 3 none (by decide), ?_⟩
  exact (C9_read_wal_degenerate (fun _ => true)).2.2.1 5 [97] 1 none (by decide) (by decide)

theorem casIndexLoop_conflicts {b : Type} (tenant_id : String) (env : Nat → CasEnv)
    (mutator : SessionIndex → SessionIndex × b) :
    ∀ fuel attempt,
      (∀ k, attempt ≤ k → k < attempt + fuel → ∃ m, (env k).put = .error (.Lock m)) →
      casIndexLoop tenant_id env mutator fuel attempt =
        .error (.Lock ("CAS index exhausted 10 retries for tenant " ++ tenant_id)) := by
  intro fuel
  induction fuel with
  | zero => intro attempt h; rfl
  | succ fuel ih =>
    intro attempt h
    obtain ⟨m, hm⟩ := h attempt le_rfl (by omega)
    simp only [casIndexLoop, hm]
    exact ih (attempt + 1) (fun k hk1 hk2 => h k (by omega) (by omega))

theorem casIndexLoop_success {b : Type} (tenant_id : String) (env : Nat → CasEnv)
    (mutator : SessionIndex → SessionIndex × b) :
    ∀ fuel attempt j, attempt ≤ j → j < attempt + fuel →
      (∀ k, attempt ≤ k → k < j → ∃ m, (env k).put = .error (.Lock m)) →
      ∀ (idx : SessionIndex) (etag newEtag : String),
        (env j).get = some (idx, etag) → (env j).put = .ok newEtag →
        casIndexLoop tenant_id env mutator fuel attempt = .ok (mutator idx) := by
  intro fuel
  induction fuel with
  | zero => intro attempt j h1 h2; omega
  | succ fuel ih =>
    intro attempt j h1 h2 hconf idx etag newEtag hget hput
    by_cases hj : attempt = j
    · subst hj
      simp only [casIndexLoop, hget, hput]
    · obtain ⟨m, hm⟩ := hconf attempt le_rfl (by omega)
      simp only [casIndexLoop, hm]
      exact ih (attempt + 1) j (by omega) (by omega)
        (fun k hk1 hk2 => hconf k (by omega) hk2) idx etag newEtag hget hput

/-- C3: a 412 on the conditional PUT is never retried at the primitive
level — it surfaces immediately as `StorageError::Lock`; the CAS loop
retries conflicts by re-reading, succeeding at attempt `j < 10` returns
the mutation of the value read there, and 10 consecutive conflicts fail
with the CasExhausted `Lock` error without any successful write. -/
theorem C3_cas_conflict_handling :
    (∀ (resp : Nat → Except SdkErr String) (e : SdkErr),
      resp 0 = .error e → is_precondition_failed e = true →
      put_object_conditional resp =
        .error (.Lock "ETag mismatch: object was modified concurrently"))
    ∧ (∀ (tenant_id : String) (env : Nat → CasEnv)
        (mutator : SessionIndex → SessionIndex),
        (∀ k, k < CAS_MAX_RETRIES → ∃ m, (env k).put = .error (.Lock m)) →
        cas_index tenant_id env mutator =
          .error (.Lock ("CAS index exhausted 10 retries for tenant " ++ tenant_id)))
    ∧ (∀ (tenant_id : String) (env : Nat → CasEnv)
        (mutator : SessionIndex → SessionIndex) (j : Nat) (idx : SessionIndex)
        (etag newEtag : String), j < CAS_MAX_RETRIES →
        (∀ k, k < j → ∃ m, (env k).put = .error (.Lock m)) →
        (env j).get = some (idx, etag) → (env j).put = .ok newEtag →
        cas_index tenant_id env mutator = .ok (mutator idx)) := by
  refine ⟨?_, ?_, ?_⟩
  · intro resp e h h2
    rw [put_object_conditional]
    simp only [putCondLoop, h, h2]
    rfl
  · intro tenant_id env mutator h
    rw [cas_index, casIndexLoop_conflicts tenant_id env _ CAS_MAX_RETRIES 0
      (fun k hk1 hk2 => h k (by omega))]
    rfl
  · intro tenant_id env mutator j idx etag newEtag hj hconf hget hput
    rw [cas_index, casIndexLoop_success tenant_id env _ CAS_MAX_RETRIES 0 j
      (by omega) (by omega) (fun k hk1 hk2 => hconf k hk2) idx etag newEtag hget hput]
    rfl

/-- Witness for C3: a stuck-at-412 PUT, an always-conflicting CAS run,
and a first-try success. -/
theorem C3_cas_conflict_handling_witness :
    put_object_conditional (fun _ => .error (.service 412)) =
      .error (.Lock "ETag mismatch: object was modified concurrently") ∧
    cas_index "t1" (fun _ => ⟨none, .error (.Lock "conflict")⟩) (fun i => i) =
      .error (.Lock "CAS index exhausted 10 retries for tenant t1") ∧
    cas_index "t1" (fun _ => ⟨some (⟨[]⟩, "e1"), .ok "e2"⟩) (fun i => i) =
      .ok ⟨[]⟩ := by
  refine ⟨C3_cas_conflict_handling.1 _ (.service 412) rfl rfl, ?_, ?_⟩
  · exact C3_cas_conflict_handling.2.1 "t1" _ _ (fun k hk => ⟨"conflict", rfl⟩)
  · exact C3_cas_conflict_handling.2.2 "t1" _ _ 0 ⟨[]⟩ "e1" "e2" (by decide)
      (fun k hk => absurd hk (by omega)) rfl rfl

/-- C10: when the session id is already present in the index read by the
successful CAS attempt, `add_session_to_index` writes that index back
unchanged — the existing entry is not overwritten and no other entry is
touched — and responds `success = true`, `already_exists = true`. -/
theorem C10_add_existing_session (tenant_id : String) (env : Nat → CasEnv)
    (sid : String) (entry : AddSessionEntryReq) (idx : SessionIndex)
    (etag newEtag : String)
    (hget : (env 0).get = some (idx, etag)) (hput : (env 0).put = .ok newEtag)
    (hmem : idx.contains sid = true) :
    add_session_to_index tenant_id env sid entry =
      .ok (idx, { success := true, already_exists := true }) := by
  have h := casIndexLoop_success tenant_id env (addSessionMutator sid entry)
    CAS_MAX_RETRIES 0 0 le_rfl (by decide)
    (fun k h1 h2 => absurd h2 (by omega)) idx etag newEtag hget hput
  rw [add_session_to_index, h, addSessionMutator, if_pos hmem]

/-- Witness for C10 on a one-entry index already holding "s1". -/
theorem C10_add_existing_session_witness :
    add_session_to_index "t1"
      (fun _ => ⟨some (⟨[("s1", ⟨"s1", none, true, 0, 0, none, 0, 0, [], false⟩)]⟩,
        "e1"), .ok "e2"⟩)
      "s1" ⟨"", 0, 0, 0, [], false⟩ =
      .ok (⟨[("s1", ⟨"s1", none, true, 0, 0, none, 0, 0, [], false⟩)]⟩,
        ⟨true, true⟩) := by
  exact C10_add_existing_session "t1" _ "s1" ⟨"", 0, 0, 0, [], false⟩
    ⟨[("s1", ⟨"s1", none, true, 0, 0, none, 0, 0, [], false⟩)]⟩ "e1" "e2"
    rfl rfl (by decide)

theorem tokenD1Path_usedCatalog (parseRfc3339 : String → Option Int)
    (toRfc3339 : Int → String) (now : Int) (cache : Option CachedToken)
    (env : TokenEnv) :
    (tokenD1Path parseRfc3339 toRfc3339 now cache env).usedCatalog = true := by
  obtain ⟨d1, resp, upd⟩ := env
  cases d1 with
  | none => rfl
  | some conn =>
    simp only [tokenD1Path]
    split
    · simp only [refresh_token_model]
      cases resp <;> rfl
    · rfl

/-- A call that hit the refresh endpoint went through the D1 path with a
connection present. -/
theorem usedRefresh_via_d1 (parseRfc3339 : String → Option Int)
    (toRfc3339 : Int → String) (now : Int) (cache : Option CachedToken)
    (env : TokenEnv)
    (h : (get_valid_token parseRfc3339 toRfc3339 now cache env).usedRefresh = true) :
    ∃ conn, env.d1Conn = some conn ∧
      get_valid_token parseRfc3339 toRfc3339 now cache env =
        refresh_token_model toRfc3339 now conn env cache := by
  obtain ⟨d1, resp, upd⟩ := env
  cases cache with
  | none =>
    simp only [get_valid_token] at h ⊢
    cases d1 with
    | none => simp [tokenD1Path] at h
    | some conn =>
      simp only [tokenD1Path] at h ⊢
      by_cases hexp : (CachedToken.mk conn.access_token
          (conn.token_expires_at.bind parseRfc3339)).is_expired now
      · exact ⟨conn, rfl, by rw [if_pos hexp]⟩
      · rw [if_neg hexp] at h
        simp at h
  | some cached =>
    simp only [get_valid_token] at h ⊢
    by_cases hc : cached.is_expired now
    · rw [if_pos hc] at h ⊢
      cases d1 with
      | none => simp [tokenD1Path] at h
      | some conn =>
        simp only [tokenD1Path] at h ⊢
        by_cases hexp : (CachedToken.mk conn.access_token
            (conn.token_expires_at.bind parseRfc3339)).is_expired now
        · exact ⟨conn, rfl, by rw [if_pos hexp]⟩
        · rw [if_neg hexp] at h
          simp at h
    · rw [if_neg hc] at h
      simp at h

/-- C4: a cached token is served without any catalog or network access
iff its expiry is more than 5 minutes away; a refresh returning
`expires_in = T` caches the token until `now + T`; any call while more
than 5 minutes remain is served from cache, and a later call — with the
catalog still holding the persisted expiry — refreshes again.  A token
within 5 minutes of expiry is never served from cache. -/
theorem C4_token_cache_window (parseRfc3339 : String → Option Int)
    (toRfc3339 : Int → String) :
    (∀ (now : Int) (cache : Option CachedToken) (env : TokenEnv),
      (get_valid_token parseRfc3339 toRfc3339 now cache env).usedCatalog = false ↔
        ∃ c exp, cache = some c ∧ c.expires_at = some exp ∧ now < exp - 300)
    ∧ (∀ (now : Int) (tok : String) (exp : Int) (env : TokenEnv),
        now < exp - 300 →
        get_valid_token parseRfc3339 toRfc3339 now (some ⟨tok, some exp⟩) env =
          { result := .ok tok, cache := some ⟨tok, some exp⟩, persisted := none,
            usedCatalog := false, usedRefresh := false })
    ∧ (∀ (now : Int) (cache : Option CachedToken) (env : TokenEnv)
        (tok : String) (T : Nat) (rt : Option String),
        env.refreshResp = .ok ⟨tok, T, rt⟩ →
        (get_valid_token parseRfc3339 toRfc3339 now cache env).usedRefresh = true →
        (get_valid_token parseRfc3339 toRfc3339 now cache env).cache =
            some ⟨tok, some (now + (T : Int))⟩
          ∧ (get_valid_token parseRfc3339 toRfc3339 now cache env).result = .ok tok)
    ∧ (∀ (t1 : Int) (tok : String) (e : Int) (env : TokenEnv)
        (conn : OAuthConnection) (s : String),
        e - 300 ≤ t1 → env.d1Conn = some conn →
        conn.token_expires_at = some s → parseRfc3339 s = some e →
        (get_valid_token parseRfc3339 toRfc3339 t1
          (some ⟨tok, some e⟩) env).usedRefresh = true) := by
  refine ⟨?_, ?_, ?_, ?_⟩
  · intro now cache env
    cases cache with
    | none =>
      simp only [get_valid_token, tokenD1Path_usedCatalog]
      simp
    | some cached =>
      simp only [get_valid_token]
      by_cases hexp : cached.is_expired now
      · rw [if_pos hexp, tokenD1Path_usedCatalog]
        simp only [Bool.true_eq_false, false_iff]
        rintro ⟨c, exp, hc, hcexp, hlt⟩
        cases hc
        rw [CachedToken.is_expired, hcexp] at hexp
        simp at hexp
        omega
      · rw [if_neg hexp]
        simp only [true_iff]
        obtain ⟨tok, expat⟩ := cached
        cases expat with
        | none => rw [CachedToken.is_expired] at hexp; simp at hexp
        | some exp =>
          rw [CachedToken.is_expired] at hexp
          simp at hexp
          exact ⟨⟨tok, some exp⟩, exp, rfl, rfl, by omega⟩
  · intro now tok exp env hlt
    simp only [get_valid_token]
    rw [if_neg (by rw [CachedToken.is_expired]; simp; omega)]
  · intro now cache env tok T rt hresp hused
    obtain ⟨conn, hconn, heq⟩ :=
      usedRefresh_via_d1 parseRfc3339 toRfc3339 now cache env hused
    rw [heq, refresh_token_model, hresp]
    exact ⟨rfl, rfl⟩
  · intro t1 tok e env conn s hle hconn hexp hparse
    obtain ⟨d1, resp, upd⟩ := env
    simp only [TokenEnv.d1Conn] at hconn
    subst hconn
    simp only [get_valid_token]
    rw [if_pos (by rw [CachedToken.is_expired]; simpa using hle)]
    simp only [tokenD1Path]
    rw [hexp]
    rw [if_pos (by rw [CachedToken.is_expired]; simp [hparse]; omega)]
    simp only [refresh_token_model]
    cases resp <;> rfl

/-- Witness for C4 at concrete times: a refresh at `t0 = 0` with
`expires_in = 3600` is cached; a call at `t1 = 3299` (one second inside
the window) is served from cache; a call at `t1 = 3300` refreshes. -/
theorem C4_token_cache_window_witness :
    get_valid_token (fun _ => some 3600) (fun _ => "ts") 3299
        (some ⟨"A2", some 3600⟩) ⟨none, .error "net", true⟩ =
      { result := .ok "A2", cache := some ⟨"A2", some 3600⟩, persisted := none,
        usedCatalog := false, usedRefresh := false } ∧
    (get_valid_token (fun _ => some 3600) (fun _ => "ts") 3300
        (some ⟨"A2", some 3600⟩)
        ⟨some ⟨"c", "A2", "R2", some "es"⟩, .ok ⟨"A3", 3600, none⟩, true⟩).usedRefresh =
      true := by
  constructor
  · exact (C4_token_cache_window (fun _ => some 3600) (fun _ => "ts")).2.1
      3299 "A2" 3600 ⟨none, .error "net", true⟩ (by omega)
  · exact (C4_token_cache_window (fun _ => some 3600) (fun _ => "ts")).2.2.2
      3300 "A2" 3600 ⟨some ⟨"c", "A2", "R2", some "es"⟩, .ok ⟨"A3", 3600, none⟩, true⟩
      ⟨"c", "A2", "R2", some "es"⟩ "es" (by omega) rfl rfl rfl

/-- Counterexample to C5 as stated: with a registered, parseable source
and a failing upload, `sync_to_source` returns the error but leaves the
state — in particular `last_error = none` — untouched, so the failure
message is NOT recorded in `last_error`. -/
theorem C5_counterexample :
    (sync_to_source ⟨.ok "tok", .error "503 backend", 100⟩
        (some ⟨some ⟨.GoogleDrive, "gdrive://c1/f1"⟩, true, none, true, none⟩)).1 =
      .error (.Sync "Google Drive upload failed: 503 backend") ∧
    (sync_to_source ⟨.ok "tok", .error "503 backend", 100⟩
        (some ⟨some ⟨.GoogleDrive, "gdrive://c1/f1"⟩, true, none, true, none⟩)).2 =
      some ⟨some ⟨.GoogleDrive, "gdrive://c1/f1"⟩, true, none, true, none⟩ := by
  constructor <;> decide

/-- C5 (amended): a successful `sync_to_source` stamps `last_synced_at`
and clears `has_pending_changes` and `last_error`; a failed call leaves
the sync state unchanged (it does not record the failure in
`last_error`); the `record_sync_error` helper — which no caller invokes —
would store a message verbatim. -/
theorem C5_sync_state_updates (env : SyncEnv) (s : TransientSyncState)
    (src : SourceDescriptor) (hsrc : s.source = some src)
    (hparse : (parse_gdrive_uri src.uri).isSome = true) :
    (∀ tok, env.tokenResult = .ok tok → env.uploadResult = .ok () →
      sync_to_source env (some s) =
        (.ok env.now,
          some { s with
                  last_synced_at := some env.now
                  has_pending_changes := false
                  last_error := none }))
    ∧ (∀ e, (sync_to_source env (some s)).1 = .error e →
        (sync_to_source env (some s)).2 = some s)
    ∧ (∀ msg st, record_sync_error msg (some st) =
        some { st with last_error := some msg }) := by
  obtain ⟨tr, ur, now⟩ := env
  obtain ⟨p, hp⟩ := Option.isSome_iff_exists.mp hparse
  refine ⟨?_, ?_, ?_⟩
  · intro tok htok hup
    simp only [SyncEnv.tokenResult] at htok
    simp only [SyncEnv.uploadResult] at hup
    subst htok
    subst hup
    simp only [sync_to_source, hsrc, hp]
  · intro e herr
    cases tr with
    | error m => simp [sync_to_source, hsrc, hp]
    | ok tok =>
      cases ur with
      | error m => simp [sync_to_source, hsrc, hp]
      | ok u =>
        simp only [sync_to_source, hsrc, hp] at herr
        simp at herr
  · intro msg st
    rfl

/-- Witness for the amended C5 at a concrete success and the helper. -/
theorem C5_sync_state_updates_witness :
    sync_to_source ⟨.ok "tok", .ok (), 42⟩
        (some ⟨some ⟨.GoogleDrive, "gdrive://c1/f1"⟩, true, none, true,
          some "old error"⟩) =
      (.ok 42, some ⟨some ⟨.GoogleDrive, "gdrive://c1/f1"⟩, true, some 42, false,
        none⟩) ∧
    record_sync_error "boom" (some ⟨none, false, none, false, none⟩) =
      some ⟨none, false, none, false, some "boom"⟩ := by
  have h := C5_sync_state_updates ⟨.ok "tok", .ok (), 42⟩
    ⟨some ⟨.GoogleDrive, "gdrive://c1/f1"⟩, true, none, true, some "old error"⟩
    ⟨.GoogleDrive, "gdrive://c1/f1"⟩ rfl (by decide)
  exact ⟨h.1 "tok" rfl rfl, h.2.2 "boom" ⟨none, false, none, false, none⟩⟩

/-- Identical metadata never counts as changed. -/
theorem has_changed_self (m : SourceMetadata) : has_changed m m = false := by
  obtain ⟨sz, mt, et, vid, ch⟩ := m
  cases vid <;> cases ch <;> simp [has_changed]

/-- Counterexample to C6 as stated: after a single external write
(revision `v1` → `v2`), two consecutive `check_for_changes` polls BOTH
return `Modified` — the second does not return `None`, because a poll
never updates `known_metadata`. -/
theorem C6_counterexample :
    (check_for_changes "s1" ⟨.ok "tok", .ok (some ⟨1, 0, none, some "v2", none⟩), 5⟩
        ⟨some ⟨⟨.GoogleDrive, "gdrive://c/f"⟩, "w1",
          some ⟨1, 0, none, some "v1", none⟩, 30⟩, none⟩).1 =
      .ok (some ⟨"s1", .Modified, some ⟨1, 0, none, some "v1", none⟩,
        some ⟨1, 0, none, some "v2", none⟩, 5, none⟩) ∧
    (check_for_changes "s1" ⟨.ok "tok", .ok (some ⟨1, 0, none, some "v2", none⟩), 6⟩
        (check_for_changes "s1"
          ⟨.ok "tok", .ok (some ⟨1, 0, none, some "v2", none⟩), 5⟩
          ⟨some ⟨⟨.GoogleDrive, "gdrive://c/f"⟩, "w1",
            some ⟨1, 0, none, some "v1", none⟩, 30⟩, none⟩).2).1 =
      .ok (some ⟨"s1", .Modified, some ⟨1, 0, none, some "v1", none⟩,
        some ⟨1, 0, none, some "v2", none⟩, 6, none⟩) := by
  constructor <;> decide

/-- C6 (amended): after `StartWatch` captures metadata `m0`, a poll that
fetches the same `m0` returns `None`; a poll fetching changed metadata
returns `Modified` and leaves the state unchanged (so further polls keep
returning `Modified` until `UpdateKnownMetadata` replaces the snapshot);
a poll finding the file gone while `known_metadata` is populated returns
`Deleted`. -/
theorem C6_watch_change_detection (session_id : String) (env : CheckEnv)
    (st : WatchState) (w : WatchedSource) (m0 m1 : SourceMetadata) (tok : String)
    (src : SourceDescriptor) (wid : String) (p d : Nat)
    (hpend : st.pending_changes = none) (hw : st.sources = some w)
    (hknown : w.known_metadata = some m0) (htok : env.tokenResult = .ok tok) :
    (env.fetchResult = .ok (some m0) →
      check_for_changes session_id env
          (start_watch src wid (some m0) p d ⟨none, none⟩) =
        (.ok none, start_watch src wid (some m0) p d ⟨none, none⟩))
    ∧ (env.fetchResult = .ok (some m1) → has_changed m0 m1 = true →
        check_for_changes session_id env st =
          (.ok (some ⟨session_id, .Modified, some m0, some m1, env.now, none⟩), st))
    ∧ (env.fetchResult = .ok none →
        check_for_changes session_id env st =
          (.ok (some ⟨session_id, .Deleted, some m0, none, env.now, none⟩), st))
    ∧ (∀ m, update_known_metadata m st =
        { st with sources := some { w with known_metadata := some m } }) := by
  obtain ⟨tr, fr, now⟩ := env
  simp only [CheckEnv.tokenResult] at htok
  subst htok
  obtain ⟨osrc, opend⟩ := st
  simp only [WatchState.pending_changes] at hpend
  simp only [WatchState.sources] at hw
  subst hpend
  subst hw
  refine ⟨?_, ?_, ?_, ?_⟩
  · intro hfetch
    simp only [CheckEnv.fetchResult] at hfetch
    subst hfetch
    simp only [check_for_changes, start_watch, has_changed_self]
    rfl
  · intro hfetch hch
    simp only [CheckEnv.fetchResult] at hfetch
    subst hfetch
    simp only [check_for_changes, hknown, hch]
    rfl
  · intro hfetch
    simp only [CheckEnv.fetchResult] at hfetch
    subst hfetch
    simp only [check_for_changes, hknown]
    rfl
  · intro m
    simp only [update_known_metadata]

/-- Witness for the amended C6: fresh watch polls clean; a revision bump
reports Modified with the state unchanged; a deletion reports Deleted. -/
theorem C6_watch_change_detection_witness :
    check_for_changes "s1" ⟨.ok "tok", .ok (some ⟨1, 0, none, some "v1", none⟩), 9⟩
        (start_watch ⟨.GoogleDrive, "gdrive://c/f"⟩ "w1"
          (some ⟨1, 0, none, some "v1", none⟩) 30 60 ⟨none, none⟩) =
      (.ok none,
        start_watch ⟨.GoogleDrive, "gdrive://c/f"⟩ "w1"
          (some ⟨1, 0, none, some "v1", none⟩) 30 60 ⟨none, none⟩) ∧
    check_for_changes "s1" ⟨.ok "tok", .ok none, 9⟩
        ⟨some ⟨⟨.GoogleDrive, "gdrive://c/f"⟩, "w1",
          some ⟨1, 0, none, some "v1", none⟩, 30⟩, none⟩ =
      (.ok (some ⟨"s1", .Deleted, some ⟨1, 0, none, some "v1", none⟩, none, 9, none⟩),
        ⟨some ⟨⟨.GoogleDrive, "gdrive://c/f"⟩, "w1",
          some ⟨1, 0, none, some "v1", none⟩, 30⟩, none⟩) := by
  have h := C6_watch_change_detection "s1"
    ⟨.ok "tok", .ok (some ⟨1, 0, none, some "v1", none⟩), 9⟩
    ⟨some ⟨⟨.GoogleDrive, "gdrive://c/f"⟩, "w1",
      some ⟨1, 0, none, some "v1", none⟩, 30⟩, none⟩
    ⟨⟨.GoogleDrive, "gdrive://c/f"⟩, "w1", some ⟨1, 0, none, some "v1", none⟩, 30⟩
    ⟨1, 0, none, some "v1", none⟩ ⟨1, 0, none, some "v1", none⟩ "tok"
    ⟨.GoogleDrive, "gdrive://c/f"⟩ "w1" 30 60 rfl rfl rfl rfl
  have h2 := C6_watch_change_detection "s1" ⟨.ok "tok", .ok none, 9⟩
    ⟨some ⟨⟨.GoogleDrive, "gdrive://c/f"⟩, "w1",
      some ⟨1, 0, none, some "v1", none⟩, 30⟩, none⟩
    ⟨⟨.GoogleDrive, "gdrive://c/f"⟩, "w1", some ⟨1, 0, none, some "v1", none⟩, 30⟩
    ⟨1, 0, none, some "v1", none⟩ ⟨1, 0, none, some "v1", none⟩ "tok"
    ⟨.GoogleDrive, "gdrive://c/f"⟩ "w1" 30 60 rfl rfl rfl rfl
  exact ⟨h.1 rfl, h2.2.2.1 rfl⟩

/-- A substring of `s` is a substring of `s ++ t`. -/
theorem containsSubstr_append_left (s t pat : String)
    (h : containsSubstr s pat = true) : containsSubstr (s ++ t) pat = true := by
  rw [containsSubstr] at h ⊢
  have htl : (s ++ t).toList = s.toList ++ t.toList := by cases s; cases t; rfl
  rw [htl, List.tails_append, List.any_append, Bool.or_eq_true]
  left
  rw [List.any_map]
  rw [List.any_eq_true] at h ⊢
  obtain ⟨x, hx, hpx⟩ := h
  refine ⟨x, hx, ?_⟩
  simp only [Function.comp]
  rw [List.isPrefixOf_iff_prefix] at hpx ⊢
  exact hpx.trans (List.prefix_append x t.toList)

/-- C8: when every send fails with a retryable connection-level error,
the proxy performs 9 sends in total (initial + 8 retries), sleeping
500 ms, 1 s, 2 s, 4 s then 5 s (capped) between them, and returns the
`BackendUnavailable` error carrying the last failure — HTTP 503, stable
code `BACKEND_UNAVAILABLE`, message mentioning the exhausted retries. -/
theorem C8_backend_unavailable (send : Nat → Except ProxyError Nat)
    (msgs : Nat → String)
    (hsend : ∀ k, send k = .error (.BackendError (msgs k)))
    (hretry : ∀ k, is_retryable_error (.BackendError (msgs k)) = true) :
    (send_to_backend_with_retry send).1 =
      .error (.BackendUnavailable (errMessage (.BackendError (msgs 8))) 8)
    ∧ (send_to_backend_with_retry send).2.1 = 9
    ∧ (send_to_backend_with_retry send).2.2 =
      [500, 1000, 2000, 4000, 5000, 5000, 5000, 5000]
    ∧ statusAndCode (.BackendUnavailable (errMessage (.BackendError (msgs 8))) 8) =
      (503, "BACKEND_UNAVAILABLE")
    ∧ containsSubstr
        (errMessage (.BackendUnavailable (errMessage (.BackendError (msgs 8))) 8))
        "after 8 retries" = true := by
  have hrun : send_to_backend_with_retry send =
      (.error (.BackendUnavailable (errMessage (.BackendError (msgs 8))) 8), 9,
        [backoffDelay 1, backoffDelay 2, backoffDelay 3, backoffDelay 4,
          backoffDelay 5, backoffDelay 6, backoffDelay 7, backoffDelay 8]) := by
    simp only [send_to_backend_with_retry, PROXY_MAX_RETRIES, sendRetryLoop,
      hsend 0, hsend 1, hsend 2, hsend 3, hsend 4, hsend 5, hsend 6, hsend 7,
      hsend 8, hretry 0, hretry 1, hretry 2, hretry 3, hretry 4, hretry 5,
      hretry 6, hretry 7, hretry 8]
    norm_num [PROXY_MAX_RETRIES]
  refine ⟨by rw [hrun], by rw [hrun], ?_, rfl, ?_⟩
  · rw [hrun]
    norm_num [backoffDelay, INITIAL_BACKOFF_MS, MAX_BACKOFF_MS]
  · show containsSubstr
      ("Backend temporarily unavailable after " ++ toString 8 ++ " retries: " ++
        errMessage (.BackendError (msgs 8))) "after 8 retries" = true
    exact containsSubstr_append_left _ _ _ (by decide)

/-- Witness for C8: a backend refusing every connection. -/
theorem C8_backend_unavailable_witness :
    (send_to_backend_with_retry
        (fun _ => .error (.BackendError "connection refused"))).1 =
      .error (.BackendUnavailable "Backend error: connection refused" 8) ∧
    (send_to_backend_with_retry
        (fun _ => .error (.BackendError "connection refused"))).2.1 = 9 ∧
    (send_to_backend_with_retry
        (fun _ => .error (.BackendError "connection refused"))).2.2 =
      [500, 1000, 2000, 4000, 5000, 5000, 5000, 5000] := by
  have h := C8_backend_unavailable
    (fun _ => .error (.BackendError "connection refused"))
    (fun _ => "connection refused") (fun k => rfl)
    (fun k => by
      show is_retryable_error (.BackendError "connection refused") = true
      decide)
  exact ⟨h.1, h.2.1, h.2.2.1⟩

